import Mathlib

/-!
Verification of the Response Analysis & Diverse Selection Engine
(`src/keyword_extractor.py`, `src/thematic_analyzer.py`, `src/activity_analyzer.py`).

Python floats are modelled as rationals (all scores in the engine are
ratios, decimal constants and results of `round(_, ndigits)`, so exact
rational arithmetic is faithful).  Python strings are modelled as
`List Char` (ASCII behaviour of `lower` / `strip` / `\s` / `\b`).
External collaborators (the LLM oracle `generate_content`, `json.loads`,
the sklearn vectorizer and KMeans, numpy tensor reductions) are parameters
of the model gathered in the `Ext` structure; everything the repository
itself computes is translated from the source.
-/

/-- Python `\s` class over ASCII: space, tab, newline, carriage return,
vertical tab, form feed. -/
def isPySpace (c : Char) : Bool :=
  c = ' ' || c = '\t' || c = '\n' || c = '\r' || c = '\x0b' || c = '\x0c'

/-- Python `str.strip()` (no arguments): drop leading and trailing whitespace. -/
def pyStrip (l : List Char) : List Char :=
  ((l.dropWhile isPySpace).reverse.dropWhile isPySpace).reverse

/-- Python `str.lower()` on ASCII text. -/
def pyLower (l : List Char) : List Char :=
  l.map Char.toLower

/-- `pre` is a prefix of `l` (Python `str.startswith`). -/
def startsWithL (l pre : List Char) : Bool :=
  match l, pre with
  | _, [] => true
  | [], _ :: _ => false
  | a :: as', b :: bs => a == b && startsWithL as' bs

/-- Python `str.endswith`. -/
def endsWithL (l suf : List Char) : Bool :=
  startsWithL l.reverse suf.reverse

/-- Python `needle in hay` on strings (contiguous substring). -/
def containsSub (needle hay : List Char) : Bool :=
  startsWithL hay needle ||
    match hay with
    | [] => false
    | _ :: t => containsSub needle t

/-- Python `hay.find(needle, start)`: smallest index `i ≥ start` where
`needle` occurs, `-1` when there is none. -/
def pyFindFrom (hay needle : List Char) (start : Nat) : Int :=
  match ((List.range (hay.length + 1)).filter
      (fun i => start ≤ i && startsWithL (hay.drop i) needle)) with
  | [] => -1
  | i :: _ => (i : Int)

/-- Python `hay.rfind(needle)`: largest index where `needle` occurs, else `-1`. -/
def pyRFind (hay needle : List Char) : Int :=
  match ((List.range (hay.length + 1)).filter
      (fun i => startsWithL (hay.drop i) needle)).reverse with
  | [] => -1
  | i :: _ => (i : Int)

/-- Resolve one Python slice endpoint against a list length
(negative indices count from the end, out of range clamps). -/
def pySliceIdx (len : Nat) (i : Int) : Nat :=
  if i < 0 then ((len : Int) + i).toNat else min i.toNat len

/-- Python `l[a:b]`. -/
def pySlice (l : List α) (a b : Int) : List α :=
  (l.take (pySliceIdx l.length b)).drop (pySliceIdx l.length a)

/-- Python `str.split(sep)` / `re.split` over a character predicate:
keeps empty segments, `[[]]` on empty input. -/
def splitOnPred (p : Char → Bool) : List Char → List (List Char)
  | [] => [[]]
  | c :: rest =>
    match splitOnPred p rest with
    | [] => [[]]
    | cur :: acc => if p c then [] :: cur :: acc else (c :: cur) :: acc

/-- The floor of a rational, written so that the kernel can evaluate it
(`Rat.floor_def`). -/
def ratFloor (q : ℚ) : ℤ := q.num / (q.den : ℤ)

theorem ratFloor_eq (q : ℚ) : ratFloor q = ⌊q⌋ := Rat.floor_def.symm

/-- Round a rational to an integer, ties to even — the behaviour of
the Python 3 `round` builtin. -/
def roundHalfEven (q : ℚ) : ℤ :=
  if q - (ratFloor q : ℚ) < 1/2 then ratFloor q
  else if 1/2 < q - (ratFloor q : ℚ) then ratFloor q + 1
  else if ratFloor q % 2 = 0 then ratFloor q else ratFloor q + 1

/-- Python `round(q, 2)`. -/
def pyRound2 (q : ℚ) : ℚ := (roundHalfEven (q * 100) : ℚ) / 100

/-- Python `round(q, 1)`. -/
def pyRound1 (q : ℚ) : ℚ := (roundHalfEven (q * 10) : ℚ) / 10

theorem roundHalfEven_le {q : ℚ} {n : ℤ} (h : q ≤ (n : ℚ)) : roundHalfEven q ≤ n := by
  have hf : ⌊q⌋ ≤ n := by
    have h' : ⌊q⌋ ≤ ⌊((n : ℤ) : ℚ)⌋ := Int.floor_le_floor h
    simpa using h'
  have h0 : (⌊q⌋ : ℚ) ≤ q := Int.floor_le q
  unfold roundHalfEven
  simp only [ratFloor_eq]
  split_ifs with h1 h2 h3
  · exact hf
  · -- the fractional part exceeds 1/2, so q is not an integer and ⌊q⌋ < n
    have hlt : ⌊q⌋ < n := by
      rcases lt_or_eq_of_le hf with h' | h'
      · exact h'
      · exfalso
        have hq : q ≤ (⌊q⌋ : ℚ) := by rw [h']; exact_mod_cast h
        linarith
    omega
  · exact hf
  · have hlt : ⌊q⌋ < n := by
      rcases lt_or_eq_of_le hf with h' | h'
      · exact h'
      · exfalso
        have hq : q ≤ (⌊q⌋ : ℚ) := by rw [h']; exact_mod_cast h
        have : q - (⌊q⌋ : ℚ) = 0 := by linarith
        rw [this] at h1
        norm_num at h1
    omega

theorem le_roundHalfEven {q : ℚ} {n : ℤ} (h : (n : ℚ) ≤ q) : n ≤ roundHalfEven q := by
  have hf : n ≤ ⌊q⌋ := Int.le_floor.mpr h
  unfold roundHalfEven
  simp only [ratFloor_eq]
  split_ifs <;> omega

theorem abs_roundHalfEven_sub_le (q : ℚ) : |(roundHalfEven q : ℚ) - q| ≤ 1/2 := by
  have h0 : (⌊q⌋ : ℚ) ≤ q := Int.floor_le q
  have h1 : q < (⌊q⌋ : ℚ) + 1 := Int.lt_floor_add_one q
  unfold roundHalfEven
  simp only [ratFloor_eq]
  split_ifs with hc hd h3 <;> (rw [abs_le]; push_cast; constructor) <;> first
    | linarith
    | (have he : q - (⌊q⌋ : ℚ) = 1/2 := le_antisymm (not_lt.mp hd) (not_lt.mp hc); linarith)

theorem pyRound2_le {q : ℚ} {n : ℤ} (h : q ≤ (n : ℚ)) : pyRound2 q ≤ n := by
  unfold pyRound2
  have h' : q * 100 ≤ ((n * 100 : ℤ) : ℚ) := by push_cast; linarith
  have := roundHalfEven_le h'
  rw [div_le_iff₀ (by norm_num : (0:ℚ) < 100)]
  calc (roundHalfEven (q * 100) : ℚ) ≤ ((n * 100 : ℤ) : ℚ) := by exact_mod_cast this
    _ = (n : ℚ) * 100 := by push_cast; ring

theorem le_pyRound2 {q : ℚ} {n : ℤ} (h : (n : ℚ) ≤ q) : (n : ℚ) ≤ pyRound2 q := by
  unfold pyRound2
  have h' : ((n * 100 : ℤ) : ℚ) ≤ q * 100 := by push_cast; linarith
  have := le_roundHalfEven h'
  rw [le_div_iff₀ (by norm_num : (0:ℚ) < 100)]
  calc (n : ℚ) * 100 = ((n * 100 : ℤ) : ℚ) := by push_cast; ring
    _ ≤ (roundHalfEven (q * 100) : ℚ) := by exact_mod_cast this

theorem abs_pyRound1_sub_le (q : ℚ) : |pyRound1 q - q| ≤ 1/20 := by
  unfold pyRound1
  have h := abs_roundHalfEven_sub_le (q * 10)
  have h10 : |((roundHalfEven (q * 10) : ℚ) - q * 10) / 10| ≤ 1/20 := by
    rw [abs_div]
    rw [div_le_iff₀ (by norm_num : (0:ℚ) < |10|)]
    calc |(roundHalfEven (q * 10) : ℚ) - q * 10| ≤ 1/2 := h
      _ = 1/20 * |10| := by norm_num
  calc |(roundHalfEven (q * 10) : ℚ) / 10 - q|
      = |((roundHalfEven (q * 10) : ℚ) - q * 10) / 10| := by ring_nf
    _ ≤ 1/20 := h10

/-! ### Modelled external collaborators -/

/-- A JSON value as produced by `json.loads` (numbers cover ints, floats
and booleans; this is all the engine ever reads back). -/
inductive PyVal where
  | num (q : ℚ)
  | str (s : List Char)
  | list (l : List PyVal)
  | dict (d : List (String × PyVal))

/-- External collaborators of the engine.  `gen` is
`LLMGenerator.generate_content`: the prompt is abstracted to the list of
content strings interpolated into it, `.error` means the call raised.
`loads` is `json.loads` (`.error` = `JSONDecodeError`).  `tfidfPairs`,
`fitTransform` (returning `X.shape[0]`), `kmeans` (labels of
`KMeans(n_clusters, random_state=42).fit_predict`) model sklearn, and
`themeKeywords` models the numpy mean/argsort reduction inside
`ThematicAnalyzer._extract_theme_keywords` (its output never feeds back
into scoring or selection). -/
structure Extern where
  llmAvailable : Bool
  gen : List (List Char) → Except Unit (List Char)
  loads : List Char → Except Unit PyVal
  tfidfPairs : List Char → Except Unit (List (List Char × ℚ))
  fitTransform : List (List Char) → Except Unit Nat
  kmeans : Nat → Nat → Except Unit (List Nat)
  themeKeywords : Nat → List Nat → Nat → List (List Char)

/-- Python truthiness of a JSON value. -/
def pyTruthy : PyVal → Bool
  | .num q => q ≠ 0
  | .str s => s ≠ []
  | .list l => !l.isEmpty
  | .dict d => !d.isEmpty

/-- `v.get(key, dflt)`: raises (`.error`) when `v` is not a dict
(`AttributeError` in Python). -/
def pyDictGet (v : PyVal) (key : String) (dflt : PyVal) : Except Unit PyVal :=
  match v with
  | .dict d =>
    match d.find? (fun p => p.1 == key) with
    | some p => .ok p.2
    | none => .ok dflt
  | _ => .error ()

/-- Iterate a JSON value the way a Python `for` loop does: lists yield
elements, strings yield 1-character strings, dicts yield their keys;
numbers raise `TypeError`. -/
def asIter : PyVal → Except Unit (List PyVal)
  | .list l => .ok l
  | .str s => .ok (s.map (fun c => PyVal.str [c]))
  | .dict d => .ok (d.map (fun p => PyVal.str p.1.toList))
  | .num _ => .error ()

/-- Use a JSON value as a number; anything else raises (`TypeError` in a
comparison or arithmetic context). -/
def asNum : PyVal → Except Unit ℚ
  | .num q => .ok q
  | _ => .error ()

/-- Use a JSON value as a string; anything else raises
(`AttributeError` on `.strip()` etc.). -/
def asStr : PyVal → Except Unit (List Char)
  | .str s => .ok s
  | _ => .error ()

/-! ### `src/keyword_extractor.py` -/

/-- One pass of `re.sub(r'\s+', ' ', text)`: collapse whitespace runs. -/
def collapseWsAux : List Char → Bool → List Char
  | [], _ => []
  | c :: rest, prevSpace =>
    if isPySpace c then
      if prevSpace then collapseWsAux rest true
      else ' ' :: collapseWsAux rest true
    else c :: collapseWsAux rest false

/-- Characters kept by `re.sub(r'[^a-z0-9\s]', ' ', text)`. -/
def keepAlnumSpace (c : Char) : Bool :=
  (97 ≤ c.toNat && c.toNat ≤ 122) || (48 ≤ c.toNat && c.toNat ≤ 57) || isPySpace c

/-- `KeywordExtractor._clean_text`: lowercase, collapse `\s+` to one
space, replace everything outside `[a-z0-9\s]` by a space, strip. -/
def clean_text (text : List Char) : List Char :=
  if text = [] then []
  else
    pyStrip ((collapseWsAux (pyLower text) false).map
      (fun c => if keepAlnumSpace c then c else ' '))

/-- A regex word character (`\w` over ASCII), for `\b` boundaries. -/
def isWordChar (c : Char) : Bool :=
  (97 ≤ c.toNat && c.toNat ≤ 122) || (65 ≤ c.toNat && c.toNat ≤ 90) ||
    (48 ≤ c.toNat && c.toNat ≤ 57) || c == '_'

/-- The word-boundary pattern built from the escaped keyword matches
`text` at position `i`. -/
def wordMatchAt (kw text : List Char) (i : Nat) : Bool :=
  ((text.drop i).take kw.length == kw) &&
  (i == 0 || !(isWordChar (text.getD (i - 1) ' '))) &&
  (i + kw.length == text.length || !(isWordChar (text.getD (i + kw.length) ' ')))

/-- `re.search` with word boundaries around the (escaped) keyword. -/
def wordBoundarySearch (kw text : List Char) : Bool :=
  (List.range (text.length + 1)).any (fun i => wordMatchAt kw text i)

/-- `KeywordExtractor._keyword_in_text`: phrase keywords by substring,
single words with `\b` boundaries, both case-insensitively. -/
def keyword_in_text (keyword text : List Char) : Bool :=
  if keyword.contains ' ' then containsSub (pyLower keyword) (pyLower text)
  else wordBoundarySearch (pyLower keyword) (pyLower text)

/-- Number of concept keywords found in the (already cleaned) response. -/
def conceptMatchCount (response : List Char) (concept_keywords : List (List Char)) : Nat :=
  (concept_keywords.filter (fun c => keyword_in_text c response)).length

/-- `KeywordExtractor.score_concept_keyword_overlap`. -/
def score_concept_keyword_overlap (response : List Char)
    (concept_keywords : List (List Char)) : ℚ :=
  let cleaned := clean_text response
  if cleaned = [] || concept_keywords = [] then 0
  else
    let nMatches := conceptMatchCount cleaned concept_keywords
    let base : ℚ := (nMatches : ℚ) / (concept_keywords.length : ℚ) * 100
    let score₁ : ℚ := if 1 ≤ nMatches then max 30 base else base
    let score₂ : ℚ :=
      if 2 ≤ nMatches then min 100 (score₁ * (13/10))
      else if 1 ≤ nMatches then min 100 (score₁ * (11/10))
      else score₁
    pyRound2 (min 100 score₂)

/-- `KeywordExtractor.extract_activity_keywords`: TF-IDF pairs of the
cleaned activity text, sorted by descending score, scores `> 0.01`
kept; empty on short input or on a vectorizer exception. -/
def extract_activity_keywords (M : Extern) (activity_text : List Char) :
    List (List Char × ℚ) :=
  let t := clean_text activity_text
  if t = [] || t.length < 50 then []
  else
    match M.tfidfPairs t with
    | .error _ => []
    | .ok pairs =>
      (List.insertionSort (fun a b => b.2 ≤ a.2) pairs).filter
        (fun p => (1:ℚ)/100 < p.2)

/-- Markdown code-fence stripping shared by `_parse_llm_response` and
`extract_concept_keywords_llm` (with Python slice semantics: a missing
closing fence makes `find` return `-1`, which drops the last char). -/
def stripCodeFences (t : List Char) : List Char :=
  if containsSub ("```json".toList) t then
    let s : Int := pyFindFrom t ("```json".toList) 0 + 7
    let e : Int := pyFindFrom t ("```".toList) s.toNat
    pyStrip (pySlice t s e)
  else if containsSub ("```".toList) t then
    let s : Int := pyFindFrom t ("```".toList) 0 + 3
    let e : Int := pyFindFrom t ("```".toList) s.toNat
    pyStrip (pySlice t s e)
  else t

/-- Locate the outermost `\x7b...\x7d` span (`find` / `rfind`), used by the
concept extractor before `json.loads`. -/
def braceExtract (t : List Char) : List Char :=
  let js : Int := pyFindFrom t ['\x7b'] 0
  let je : Int := pyRFind t ['\x7d'] + 1
  if js ≠ -1 && js < je then pySlice t js je else t

/-- `ActivityAnalyzer._parse_llm_response`: strip fences, `json.loads`,
empty dict on `JSONDecodeError`. -/
def parse_llm_response (M : Extern) (response_text : List Char) : PyVal :=
  match M.loads (stripCodeFences response_text) with
  | .ok v => v
  | .error _ => .dict []

/-- The generic-vocabulary stop list of `extract_concept_keywords_llm`. -/
def conceptStopwords : List (List Char) :=
  (["the", "a", "an", "and", "or", "but", "is", "are", "was", "were", "be",
    "been", "being", "have", "has", "had", "do", "does", "did", "will",
    "would", "could", "should", "may", "might", "can", "must"]).map
    (fun s => s.toList)

/-- The bullet characters stripped by the heuristic text fallback. -/
def bulletChars : List Char := ['-', '•', '*']

/-- The line/delimiter heuristic fallback of `extract_concept_keywords_llm`
(used after a `JSONDecodeError`). -/
def conceptTextFallback (response : List Char) : List (List Char) :=
  let lines := splitOnPred (fun c => c == '\n') response
  lines.foldl (fun concepts line =>
    let line := pyStrip line
    if line ≠ [] && (startsWithL line ['-'] || startsWithL line ['•'] ||
        startsWithL line ['*']) then
      let concept := pyStrip (line.dropWhile (fun c => bulletChars.contains c))
      if concept ≠ [] && 1 < concept.length then concepts ++ [concept] else concepts
    else if containsSub [':'] line || containsSub [','] line then
      let parts := splitOnPred (fun c => c == ':' || c == ',') line
      parts.foldl (fun cs part =>
        let part := pyStrip part
        if part ≠ [] && 1 < part.length &&
            !((["concepts", "keywords", "terms"].map (fun s => s.toList)).contains
              (pyLower part)) then
          cs ++ [part]
        else cs) concepts
    else concepts) []

/-- The TF-IDF fallback of the concept extractor: top 20 activity
keywords. -/
def conceptTfidfFallback (M : Extern) (activity_text : List Char) : List (List Char) :=
  ((extract_activity_keywords M activity_text).take 20).map Prod.fst

/-- `KeywordExtractor.extract_concept_keywords_llm`.  The LLM JSON path
cleans and filters the `concepts` entry; a `JSONDecodeError` goes to the
line-heuristic fallback; any other exception (a raised `generate_content`,
a non-dict JSON value, a non-string concept) is caught by the outer
`except` and degrades to TF-IDF, as does an unavailable oracle.
`conceptParseJson` is the list-comprehension cleaning of the parsed
`concepts` entry (strip each string, keep length > 1, drop stop words);
`.error` stands for the exceptions the outer handler catches. -/
def conceptParseJson (v : PyVal) : Except Unit (List (List Char)) := do
  let cv ← pyDictGet v "concepts" (.list [])
  let cl ← asIter cv
  let cleaned ← cl.foldlM (fun acc c => do
      if !(pyTruthy c) then pure acc
      else do
        let s ← asStr c
        if 1 < (pyStrip s).length then pure (acc ++ [pyStrip s])
        else pure acc) ([] : List (List Char))
  pure (cleaned.filter (fun c => !(conceptStopwords.contains (pyLower c))))

def extract_concept_keywords_llm (M : Extern) (activity_text : List Char) :
    List (List Char) :=
  if !M.llmAvailable then conceptTfidfFallback M activity_text
  else
    match M.gen [activity_text.take 2000] with
    | .error _ => conceptTfidfFallback M activity_text
    | .ok response =>
      let response := braceExtract (stripCodeFences response)
      match M.loads response with
      | .ok v =>
        match conceptParseJson v with
        | .ok concepts => concepts.take 30
        | .error _ => conceptTfidfFallback M activity_text
      | .error _ =>
        let concepts := conceptTextFallback response
        if concepts ≠ [] then concepts.take 30
        else conceptTfidfFallback M activity_text

/-! ### `src/thematic_analyzer.py` -/

/-- The result dict of `ThematicAnalyzer.cluster_responses`. -/
structure ClusterResult where
  clusters : List (Nat × List Nat)
  themes : List (Nat × List (List Char))
  response_to_cluster : List (Nat × Nat)

/-- `enumerate(l)`. -/
def pyEnum (l : List α) : List (Nat × α) := (List.range l.length).zip l

/-- The single-cluster fallback dict used for tiny inputs and failures. -/
def singleClusterResult (n : Nat) : ClusterResult :=
  { clusters := [(0, List.range n)]
  , themes := [(0, [("general".toList)])]
  , response_to_cluster := (List.range n).map (fun i => (i, 0)) }

/-- `ThematicAnalyzer.cluster_responses`: fewer than 2 responses or a
vectorizer exception degrade to one cluster; otherwise
`n_clusters = max(1, min(n_themes, len(responses), X.shape[0]))` and
KMeans labels are collected per index (a KMeans exception hits the outer
`except` and also degrades to one cluster). -/
def cluster_responses (M : Extern) (n_themes : Nat)
    (responses : List (List Char)) : ClusterResult :=
  if responses.length < 2 then singleClusterResult responses.length
  else
    match M.fitTransform responses with
    | .error _ => singleClusterResult responses.length
    | .ok rows =>
      let n_clusters := max 1 (min n_themes (min responses.length rows))
      if n_clusters = 1 then
        { clusters := [(0, List.range responses.length)]
        , themes := [(0, M.themeKeywords rows (List.replicate responses.length 0) 0)]
        , response_to_cluster := (List.range responses.length).map (fun i => (i, 0)) }
      else
        match M.kmeans n_clusters rows with
        | .error _ => singleClusterResult responses.length
        | .ok labels =>
          let keys := labels.dedup
          { clusters := keys.map (fun l =>
              (l, ((pyEnum labels).filter (fun p => p.2 == l)).map Prod.fst))
          , themes := keys.map (fun l => (l, M.themeKeywords rows labels l))
          , response_to_cluster := pyEnum labels }

/-- One scored-response dict.  `text` carries the (stripped) response
(the `response` / `question` key), `concept` and `category` are only
populated by the Q2 / Q3 pipelines. -/
structure Scored where
  student_id : List Char
  text : List Char
  keyword_score : ℚ
  quality_score : ℚ
  total_score : ℚ
  response_idx : Nat
  cluster_id : Nat
  concept : List Char
  category : List Char
deriving DecidableEq

/-- `response_to_cluster.get(i, 0)`. -/
def r2cGet (m : List (Nat × Nat)) (i : Nat) : Nat :=
  match m.find? (fun p => p.1 == i) with
  | some p => p.2
  | none => 0

/-- Phase 2 body of `ensure_diversity`: fill remaining slots with the
highest-scoring not-yet-selected candidates. -/
def divStep (top_n : Nat) (sel : List (Nat × Scored)) (p : Nat × Scored) :
    List (Nat × Scored) :=
  if top_n ≤ sel.length then sel
  else if sel.any (fun q => q.1 == p.1) then sel
  else sel ++ [p]

/-- Phase 1 body of `ensure_diversity`: take the best not-yet-selected
member of the cluster group `k`. -/
def divPick (indexed : List (Nat × Scored)) (r2c : List (Nat × Nat))
    (top_n : Nat) (sel : List (Nat × Scored)) (k : Nat) : List (Nat × Scored) :=
  if top_n ≤ sel.length then sel
  else
    match (indexed.filter (fun p => r2cGet r2c p.1 == k)).find?
        (fun p => !(sel.any (fun q => q.1 == p.1))) with
    | some p => sel ++ [p]
    | none => sel

/-- The two selection phases of `ensure_diversity` over the enumerated
score-sorted list: one best member per cluster-group key (ascending key
order), then fill by score. -/
def divSelect (indexed : List (Nat × Scored)) (r2c : List (Nat × Nat))
    (top_n : Nat) : List (Nat × Scored) :=
  let keys := List.insertionSort (fun a b : Nat => a ≤ b)
    ((indexed.map (fun p => r2cGet r2c p.1)).dedup)
  indexed.foldl (divStep top_n) (keys.foldl (divPick indexed r2c top_n) [])

/-- `ThematicAnalyzer.ensure_diversity`.  Note that the source looks
cluster ids up with the index of the response in the *score-sorted*
list (`for idx, resp in enumerate(sorted_responses)`), not with the
original response index that keys `response_to_cluster`. -/
def ensure_diversity (scored_responses : List Scored) (r2c : List (Nat × Nat))
    (top_n : Nat) : List Scored :=
  if scored_responses.isEmpty then []
  else
    let sorted := List.insertionSort
      (fun a b : Scored => b.total_score ≤ a.total_score) scored_responses
    if sorted.length ≤ top_n then sorted
    else
      (List.insertionSort (fun a b : Scored => b.total_score ≤ a.total_score)
        ((divSelect (pyEnum sorted) r2c top_n).map Prod.snd)).take top_n

/-! ### `src/activity_analyzer.py`: quality-oracle plumbing -/

/-- `float(min(100, max(0, score)))`. -/
def pyClip0100 (q : ℚ) : ℚ := min 100 (max 0 q)

/-- `ActivityAnalyzer._get_llm_quality_score`: one oracle call per
response; any exception anywhere in the body yields the neutral 50. -/
def get_llm_quality_score (M : Extern) (response : List Char) : ℚ :=
  match (do
      let txt ← M.gen [response]
      let analysis := parse_llm_response M txt
      let score ← pyDictGet analysis "score" (.num 50)
      let q ← asNum score
      pure (pyClip0100 q) : Except Unit ℚ) with
  | .ok q => q
  | .error _ => 50

/-- `range(0, len(responses), 12)` batches of
`_batch_get_llm_quality_scores`. -/
def batchChunks (l : List α) : List (List α) :=
  if h : l.isEmpty then []
  else (l.take 12) :: batchChunks (l.drop 12)
termination_by l.length
decreasing_by
  have hpos : 0 < l.length := by
    cases l
    · simp at h
    · simp
  simp only [List.length_drop]
  omega

/-- One batch of `_batch_get_llm_quality_scores`: call the oracle on the
batch, read `scores` entries `(index, score)`, clip each in-range score
to `[0, 100]`, default every missing index to 50.  Any exception
(`.error`) aborts the whole batched path. -/
def processBatch (M : Extern) (batch : List (List Char)) : Except Unit (List ℚ) := do
  let txt ← M.gen batch
  let analysis := parse_llm_response M txt
  let scoresVal ← pyDictGet analysis "scores" (.list [])
  let scoresList ← asIter scoresVal
  let entries ← scoresList.foldlM (fun acc sd => do
      let idxv ← pyDictGet sd "index" (.num (-1))
      let scv ← pyDictGet sd "score" (.num 50)
      let idx ← asNum idxv
      if 0 ≤ idx && idx < (batch.length : ℚ) then do
        let sc ← asNum scv
        pure ((idx, pyClip0100 sc) :: acc)
      else pure acc) ([] : List (ℚ × ℚ))
  pure ((List.range batch.length).map (fun i =>
    match entries.find? (fun p => p.1 == (i : ℚ)) with
    | some p => p.2
    | none => 50))

/-- `ActivityAnalyzer._batch_get_llm_quality_scores`: batched oracle
scoring; if any batch raises, fall back to one individual call per
response (each of which absorbs its own failure). -/
def batch_get_llm_quality_scores (M : Extern) (responses : List (List Char)) :
    List ℚ :=
  if responses.isEmpty then []
  else
    match (batchChunks responses).mapM (processBatch M) with
    | .ok ll => ll.join
    | .error _ => responses.map (fun r => get_llm_quality_score M r)

/-! ### `src/activity_analyzer.py`: categorization and pipelines -/

/-- Configuration threaded through `ActivityAnalyzer.__init__`
(defaults: weights 0.4 / 0.4, `top_n` 10, `n_themes` 5). -/
structure AnalyzerConfig where
  weight_keyword : ℚ
  weight_quality : ℚ
  top_n : Nat
  n_themes : Nat

/-- The combined score of `analyze_q1_summaries` / `analyze_q2_questions`:
`base_score = keyword_score * weight_keyword + quality_score * weight_quality`. -/
def combined_score (weight_keyword weight_quality keyword quality : ℚ) : ℚ :=
  keyword * weight_keyword + quality * weight_quality

/-- One cohort bucket: count, `round(count/total*100, 1)` (0 when the
population is empty), and the member student ids. -/
structure CohortBucket where
  count : Nat
  percentage : ℚ
  students : List (List Char)
deriving DecidableEq

/-- The two complementary buckets of a categorization
(`learned_well`/`needs_reinforcement`, `wants_to_explore`/`general_interest`). -/
structure Categorization where
  above : CohortBucket
  below : CohortBucket
deriving DecidableEq

/-- Build one bucket dict entry. -/
def mkBucket (members : List Scored) (total : Nat) : CohortBucket :=
  { count := members.length
  , percentage :=
      if 0 < total then pyRound1 ((members.length : ℚ) / (total : ℚ) * 100) else 0
  , students := members.map (fun r => r.student_id) }

/-- `ActivityAnalyzer._categorize_cognitive_domain`: partition all scored
responses by `total_score >= 50`. -/
def categorize_cognitive_domain (all_scored : List Scored) : Categorization :=
  let learned_well := all_scored.filter (fun r => 50 ≤ r.total_score)
  let needs_reinforcement := all_scored.filter (fun r => r.total_score < 50)
  { above := mkBucket learned_well all_scored.length
  , below := mkBucket needs_reinforcement all_scored.length }

/-- `ActivityAnalyzer._categorize_affective_domain`: partition all scored
responses by `quality_score >= 50`. -/
def categorize_affective_domain (all_scored : List Scored) : Categorization :=
  let wants_to_explore := all_scored.filter (fun r => 50 ≤ r.quality_score)
  let general_interest := all_scored.filter (fun r => r.quality_score < 50)
  { above := mkBucket wants_to_explore all_scored.length
  , below := mkBucket general_interest all_scored.length }

/-- The closed list of non-answer patterns of `_is_valid_question`. -/
def invalidPatterns : List (List Char) :=
  (["no questions", "no question", "no questionsss", "no questionss",
    "no questionssss", "no questionsssss", "no questionssssss", "n/a", "na",
    "none", "nothing", "no", "nope", "nothing to ask", "no questions to ask",
    "i have no questions"]).map (fun s => s.toList) ++
  [("i don".toList ++ ['\x27'] ++ "t have questions".toList)] ++
  (["i dont have questions", "no questions at this time",
    "no questions right now"]).map (fun s => s.toList)

/-- The interrogative markers of `_is_valid_question`. -/
def questionIndicators : List (List Char) :=
  (["?", "how", "what", "why", "when", "where", "who", "which", "can",
    "could", "should", "would", "will", "do", "does", "did", "is", "are",
    "was", "were"]).map (fun s => s.toList)

/-- `ActivityAnalyzer._is_valid_question`. -/
def is_valid_question (response : List Char) : Bool :=
  if response.isEmpty then false
  else
    let rl := pyStrip (pyLower response)
    if invalidPatterns.any (fun p =>
        rl == p || startsWithL rl (p ++ [' ']) || endsWithL rl ([' '] ++ p)) then
      false
    else if (rl.filter (fun c =>
        !(c == ' ' || c == '.' || c == '!' || c == '?'))).length < 5 then
      false
    else
      questionIndicators.any (fun q => containsSub q rl) || 20 ≤ response.length

/-- The Q1 validity filter: strip, keep responses of length `>= 20`.
Input pairs are `(student_id, q1_text)` in dict order, with a missing
answer read as the empty string; the output keeps the stripped text. -/
def q1_valid (responses : List (List Char × List Char)) :
    List (List Char × List Char) :=
  responses.filterMap (fun sr =>
    let r := pyStrip sr.2
    if 20 ≤ r.length then some (sr.1, r) else none)

/-- The Q1 scoring loop: concept-keyword score, batch quality score
(default 50 past the end of the list), weighted combination, all
rounded to 2 decimals.  (The display-only `theme` string affixed
later is not modelled.) -/
def q1_scored (cfg : AnalyzerConfig) (concept_keywords : List (List Char))
    (quality_scores : List ℚ) (valid : List (List Char × List Char)) :
    List Scored :=
  (pyEnum valid).map (fun p =>
    let concept_score := score_concept_keyword_overlap p.2.2 concept_keywords
    let quality_score := quality_scores.getD p.1 50
    let base := combined_score cfg.weight_keyword cfg.weight_quality
      concept_score quality_score
    { student_id := p.2.1, text := p.2.2
    , keyword_score := pyRound2 concept_score
    , quality_score := pyRound2 quality_score
    , total_score := pyRound2 base
    , response_idx := p.1, cluster_id := 0, concept := [], category := [] })

/-- Affix the cluster id (`response_to_cluster.get(idx, 0)`) to each Q1
scored response. -/
def q1_clustered (scored : List Scored) (r2c : List (Nat × Nat)) : List Scored :=
  scored.map (fun s => { s with cluster_id := r2cGet r2c s.response_idx })

/-- The full Q1 scored list as computed by `analyze_q1_summaries`. -/
def q1_scored_of (M : Extern) (cfg : AnalyzerConfig)
    (responses : List (List Char × List Char)) (activity_template : List Char) :
    List Scored :=
  let valid := q1_valid responses
  let texts := valid.map Prod.snd
  q1_clustered
    (q1_scored cfg (extract_concept_keywords_llm M activity_template)
      (batch_get_llm_quality_scores M texts) valid)
    ((cluster_responses M cfg.n_themes texts).response_to_cluster)

/-- The result payload of `analyze_q1_summaries`. -/
structure Q1Result where
  top_10_responses : List Scored
  total_analyzed : Nat
  cognitive_categorization : Categorization
  themes_discovered : List (Nat × List (List Char))
  concept_keywords : List (List Char)

/-- `ActivityAnalyzer.analyze_q1_summaries`.  (When no response passes
the filter the source dict has no `cognitive_categorization` key; the
model uses the empty categorization there.) -/
def analyze_q1_summaries (M : Extern) (cfg : AnalyzerConfig)
    (responses : List (List Char × List Char)) (activity_template : List Char) :
    Q1Result :=
  let concept_keywords := extract_concept_keywords_llm M activity_template
  let valid := q1_valid responses
  if valid.isEmpty then
    { top_10_responses := [], total_analyzed := 0
    , cognitive_categorization := categorize_cognitive_domain []
    , themes_discovered := [], concept_keywords := concept_keywords }
  else
    let texts := valid.map Prod.snd
    let scored := q1_scored_of M cfg responses activity_template
    let clusters := cluster_responses M cfg.n_themes texts
    { top_10_responses := ensure_diversity scored clusters.response_to_cluster cfg.top_n
    , total_analyzed := scored.length
    , cognitive_categorization := categorize_cognitive_domain scored
    , themes_discovered := clusters.themes
    , concept_keywords := concept_keywords }

/-- The Q2 validity filter: strip, length `>= 10` and
`_is_valid_question`. -/
def q2_valid (responses : List (List Char × List Char)) :
    List (List Char × List Char) :=
  responses.filterMap (fun sr =>
    let r := pyStrip sr.2
    if 10 ≤ r.length && is_valid_question r then some (sr.1, r) else none)

/-- The Q2 scoring loop.  `qtc` abstracts
`_map_questions_to_concepts` (LLM mapping with keyword fallbacks); the
loop only reads its pointwise values, so it is a parameter of the model.
Concept-aligned questions get keyword score 80, `Other` gets 40; a
quality score below 30 is zeroed. -/
def q2_scored_of (cfg : AnalyzerConfig) (qtc : Nat → List Char)
    (quality_scores : List ℚ) (valid : List (List Char × List Char)) :
    List Scored :=
  (pyEnum valid).filterMap (fun p =>
    if !(is_valid_question p.2.2) then none
    else
      let concept := qtc p.1
      let concept_score : ℚ := if concept ≠ ("Other".toList) then 80 else 40
      let q0 := quality_scores.getD p.1 50
      let quality_score := if q0 < 30 then 0 else q0
      let base := combined_score cfg.weight_keyword cfg.weight_quality
        concept_score quality_score
      some { student_id := p.2.1, text := p.2.2
           , keyword_score := pyRound2 concept_score
           , quality_score := pyRound2 quality_score
           , total_score := pyRound2 base
           , response_idx := p.1, cluster_id := 0, concept := concept
           , category := [] })

/-- The result payload of `analyze_q2_questions` (the display-only
frequency grouping of the same filtered questions by concept theme is
not modelled). -/
structure Q2Result where
  top_10_questions : List Scored
  total_analyzed : Nat
  concept_keywords : List (List Char)

/-- `ActivityAnalyzer.analyze_q2_questions`. -/
def analyze_q2_questions (M : Extern) (cfg : AnalyzerConfig)
    (responses : List (List Char × List Char)) (activity_template : List Char)
    (qtc : Nat → List Char) : Q2Result :=
  let concept_keywords := extract_concept_keywords_llm M activity_template
  let valid := q2_valid responses
  if valid.isEmpty then
    { top_10_questions := [], total_analyzed := 0
    , concept_keywords := concept_keywords }
  else
    let quality_scores := batch_get_llm_quality_scores M (valid.map Prod.snd)
    let scored := q2_scored_of cfg qtc quality_scores valid
    let valid_scored := scored.filter (fun q => is_valid_question q.text)
    { top_10_questions :=
        (List.insertionSort (fun a b : Scored => b.total_score ≤ a.total_score)
          valid_scored).take cfg.top_n
    , total_analyzed := scored.length
    , concept_keywords := concept_keywords }

/-- The Q3 validity filter: strip, keep responses of length `>= 15`. -/
def q3_valid (responses : List (List Char × List Char)) :
    List (List Char × List Char) :=
  responses.filterMap (fun sr =>
    let r := pyStrip sr.2
    if 15 ≤ r.length then some (sr.1, r) else none)

/-- The Q3 scoring loop: the combined score is the quality score itself.
`cls` abstracts `_classify_content_vs_pedagogy` (LLM classification with
keyword fallback, default `content`); only its pointwise values are
read. -/
def q3_scored_of (quality_scores : List ℚ) (cls : Nat → List Char)
    (valid : List (List Char × List Char)) : List Scored :=
  (pyEnum valid).map (fun p =>
    let q := quality_scores.getD p.1 50
    { student_id := p.2.1, text := p.2.2, keyword_score := 0
    , quality_score := pyRound2 q, total_score := pyRound2 q
    , response_idx := p.1, cluster_id := 0, concept := []
    , category := cls p.1 })

/-- The result payload of `analyze_q3_fascination` (the display-only
content/pedagogy theme grouping of the same filtered responses is not
modelled). -/
structure Q3Result where
  top_10_responses : List Scored
  total_analyzed : Nat
  affective_categorization : Categorization

/-- `ActivityAnalyzer.analyze_q3_fascination`. -/
def analyze_q3_fascination (M : Extern) (cfg : AnalyzerConfig)
    (responses : List (List Char × List Char)) (activity_template : List Char)
    (cls : Nat → List Char) : Q3Result :=
  let valid := q3_valid responses
  if valid.isEmpty then
    { top_10_responses := [], total_analyzed := 0
    , affective_categorization := categorize_affective_domain [] }
  else
    let quality_scores := batch_get_llm_quality_scores M (valid.map Prod.snd)
    let scored := q3_scored_of quality_scores cls valid
    { top_10_responses :=
        (List.insertionSort (fun a b : Scored => b.total_score ≤ a.total_score)
          scored).take cfg.top_n
    , total_analyzed := scored.length
    , affective_categorization := categorize_affective_domain scored }

/-! ### Lemmas about `ensure_diversity` -/

instance : IsTotal Scored (fun a b => b.total_score ≤ a.total_score) :=
  ⟨fun a b => le_total b.total_score a.total_score⟩

instance : IsTrans Scored (fun a b => b.total_score ≤ a.total_score) :=
  ⟨fun _ _ _ h1 h2 => le_trans h2 h1⟩

theorem divStep_shape (n : Nat) (sel : List (Nat × Scored)) (p : Nat × Scored) :
    divStep n sel p = sel ∨
      (sel.length < n ∧ divStep n sel p = sel ++ [p]) := by
  unfold divStep
  split_ifs with h1 h2
  · exact Or.inl rfl
  · exact Or.inl rfl
  · exact Or.inr ⟨Nat.lt_of_not_le h1, rfl⟩

theorem divPick_shape (indexed : List (Nat × Scored)) (r2c : List (Nat × Nat))
    (n : Nat) (sel : List (Nat × Scored)) (k : Nat) :
    divPick indexed r2c n sel k = sel ∨
      (sel.length < n ∧ ∃ p ∈ indexed, divPick indexed r2c n sel k = sel ++ [p]) := by
  unfold divPick
  split_ifs with h1
  · exact Or.inl rfl
  · cases hf : ((indexed.filter (fun p => r2cGet r2c p.1 == k)).find?
        (fun p => !(sel.any (fun q => q.1 == p.1)))) with
    | none => exact Or.inl rfl
    | some p =>
      refine Or.inr ⟨Nat.lt_of_not_le h1, p, ?_, rfl⟩
      exact List.mem_of_mem_filter (List.mem_of_find?_eq_some hf)

/-- Both phases only append, so the accumulator stays a prefix. -/
theorem foldl_app_extends {β : Type} (step : List (Nat × Scored) → β → List (Nat × Scored))
    (hstep : ∀ sel b, step sel b = sel ∨ ∃ x, step sel b = sel ++ [x])
    (l : List β) :
    ∀ init, init <+: l.foldl step init := by
  induction l with
  | nil => intro init; exact List.prefix_rfl
  | cons b t ih =>
    intro init
    have h1 : init <+: step init b := by
      rcases hstep init b with h | ⟨x, h⟩
      · rw [h]
      · rw [h]; exact ⟨[x], rfl⟩
    exact h1.trans (ih (step init b))

/-- Both phases never grow the selection beyond `n`. -/
theorem foldl_bounded {β : Type} (n : Nat)
    (step : List (Nat × Scored) → β → List (Nat × Scored))
    (hstep : ∀ sel b, step sel b = sel ∨
      (sel.length < n ∧ ∃ x, step sel b = sel ++ [x]))
    (l : List β) :
    ∀ init, init.length ≤ n → (l.foldl step init).length ≤ n := by
  induction l with
  | nil => intro init h; exact h
  | cons b t ih =>
    intro init h
    apply ih
    rcases hstep init b with h' | ⟨hlt, x, h'⟩
    · rw [h']; exact h
    · rw [h']; simp; omega

/-- Elements produced by the folds come from the initial selection or
from the scanned list / `indexed`. -/
theorem foldl_mem_src {β : Type} (src : List (Nat × Scored))
    (step : List (Nat × Scored) → β → List (Nat × Scored)) :
    ∀ (l : List β), (∀ sel b, b ∈ l → step sel b = sel ∨
      ∃ x ∈ src, step sel b = sel ++ [x]) →
    ∀ init x, x ∈ l.foldl step init → x ∈ init ∨ x ∈ src := by
  intro l
  induction l with
  | nil => intro _ init x h; exact Or.inl h
  | cons b t ih =>
    intro hstep init x h
    rcases ih (fun sel b' hb' => hstep sel b' (List.mem_cons_of_mem b hb'))
        (step init b) x h with h' | h'
    · rcases hstep init b (List.mem_cons_self b t) with he | ⟨y, hy, he⟩
      · rw [he] at h'; exact Or.inl h'
      · rw [he] at h'
        rcases List.mem_append.mp h' with h'' | h''
        · exact Or.inl h''
        · simp at h''
          subst h''
          exact Or.inr hy
    · exact Or.inr h'

/-- The three possible outcomes of one phase-2 step. -/
theorem divStep_cases (n : Nat) (sel : List (Nat × Scored)) (p : Nat × Scored) :
    (n ≤ sel.length ∧ divStep n sel p = sel) ∨
    (p.1 ∈ sel.map Prod.fst ∧ divStep n sel p = sel) ∨
    divStep n sel p = sel ++ [p] := by
  unfold divStep
  split_ifs with h1 h2
  · exact Or.inl ⟨h1, rfl⟩
  · refine Or.inr (Or.inl ⟨?_, rfl⟩)
    rcases List.any_eq_true.mp h2 with ⟨r, hr, hr2⟩
    have : r.1 = p.1 := by simpa using hr2
    exact this ▸ List.mem_map_of_mem Prod.fst hr
  · exact Or.inr (Or.inr rfl)

theorem divStep_ext (n : Nat) : ∀ sel b, divStep n sel b = sel ∨
    ∃ x, divStep n sel b = sel ++ [x] := by
  intro sel b
  rcases divStep_shape n sel b with h | ⟨_, h⟩
  · exact Or.inl h
  · exact Or.inr ⟨b, h⟩

/-- After phase 2 either the cap is reached or every index of the
scanned list appears in the selection. -/
theorem divStep_foldl_cover (n : Nat) (l : List (Nat × Scored)) :
    ∀ init, n ≤ (l.foldl (divStep n) init).length ∨
      ∀ p ∈ l, p.1 ∈ (l.foldl (divStep n) init).map Prod.fst := by
  induction l with
  | nil =>
    intro init
    exact Or.inr (fun p hp => absurd hp (List.not_mem_nil p))
  | cons q t ih =>
    intro init
    have hext : (divStep n init q) <+: (t.foldl (divStep n) (divStep n init q)) :=
      foldl_app_extends _ (divStep_ext n) t _
    have hfold : (q :: t).foldl (divStep n) init =
        t.foldl (divStep n) (divStep n init q) := by simp
    rcases ih (divStep n init q) with h | h
    · left; rw [hfold]; exact h
    · rcases divStep_cases n init q with ⟨hn, he⟩ | ⟨hk, he⟩ | he
      · left
        rw [hfold]
        calc n ≤ init.length := hn
          _ = (divStep n init q).length := (congrArg List.length he).symm
          _ ≤ _ := hext.length_le
      · right
        intro p hp
        rcases List.mem_cons.mp hp with rfl | hp'
        · rw [hfold]
          obtain ⟨r, hr, hr2⟩ := List.mem_map.mp hk
          have hr' : r ∈ divStep n init p := by rw [he]; exact hr
          exact hr2 ▸ List.mem_map_of_mem Prod.fst (hext.subset hr')
        · rw [hfold]; exact h p hp'
      · right
        intro p hp
        rcases List.mem_cons.mp hp with rfl | hp'
        · rw [hfold]
          have hmem : p ∈ divStep n init p := by rw [he]; simp
          exact List.mem_map_of_mem Prod.fst (hext.subset hmem)
        · rw [hfold]; exact h p hp'

theorem divPick_ext (indexed : List (Nat × Scored)) (r2c : List (Nat × Nat))
    (n : Nat) : ∀ sel k, divPick indexed r2c n sel k = sel ∨
      (sel.length < n ∧ ∃ x, divPick indexed r2c n sel k = sel ++ [x]) := by
  intro sel k
  rcases divPick_shape indexed r2c n sel k with h | ⟨hlt, p, _, h⟩
  · exact Or.inl h
  · exact Or.inr ⟨hlt, p, h⟩

theorem pyEnum_map_fst (l : List α) : (pyEnum l).map Prod.fst = List.range l.length := by
  unfold pyEnum
  exact List.map_fst_zip _ _ (by simp)

theorem pyEnum_length (l : List α) : (pyEnum l).length = l.length := by
  unfold pyEnum
  simp

theorem pyEnum_snd_mem {l : List α} {p : Nat × α} (h : p ∈ pyEnum l) : p.2 ∈ l := by
  unfold pyEnum at h
  obtain ⟨i, a⟩ := p
  exact (List.mem_zip h).2

/-- When the sorted list is strictly longer than the cap, the two-phase
selection returns exactly `top_n` entries. -/
theorem divSelect_length (l : List Scored) (r2c : List (Nat × Nat)) (k : Nat)
    (hk : k < l.length) : (divSelect (pyEnum l) r2c k).length = k := by
  unfold divSelect
  set indexed := pyEnum l with hidx
  set keys := List.insertionSort (fun a b : Nat => a ≤ b)
    ((indexed.map (fun p => r2cGet r2c p.1)).dedup) with hkeys
  set init := keys.foldl (divPick indexed r2c k) ([] : List (Nat × Scored)) with hinit
  have h1 : init.length ≤ k := by
    rw [hinit]
    exact foldl_bounded k _ (divPick_ext indexed r2c k) keys [] (by simp)
  have h2 : (indexed.foldl (divStep k) init).length ≤ k :=
    foldl_bounded k _ (fun sel b => by
      rcases divStep_shape k sel b with h | ⟨hlt, h⟩
      · exact Or.inl h
      · exact Or.inr ⟨hlt, b, h⟩) indexed init h1
  rcases divStep_foldl_cover k indexed init with hc | hc
  · exact le_antisymm h2 hc
  · exfalso
    have hsub : ∀ i ∈ List.range l.length,
        i ∈ (indexed.foldl (divStep k) init).map Prod.fst := by
      intro i hi
      rw [← pyEnum_map_fst l, ← hidx] at hi
      obtain ⟨p, hp, hpi⟩ := List.mem_map.mp hi
      exact hpi ▸ hc p hp
    have hsp := List.subperm_of_subset (List.nodup_range l.length) hsub
    have hle := hsp.length_le
    rw [List.length_range, List.length_map] at hle
    omega

/-- Everything the two-phase selection returns comes from `indexed`. -/
theorem divSelect_subset (indexed : List (Nat × Scored)) (r2c : List (Nat × Nat))
    (k : Nat) : ∀ x ∈ divSelect indexed r2c k, x ∈ indexed := by
  unfold divSelect
  intro x hx
  have h2 := foldl_mem_src indexed (divStep k) indexed
    (fun sel b hb => by
      rcases divStep_shape k sel b with h | ⟨_, h⟩
      · exact Or.inl h
      · exact Or.inr ⟨b, hb, h⟩) _ x hx
  rcases h2 with h2 | h2
  · have h1 := foldl_mem_src indexed (divPick indexed r2c k) _
      (fun sel b _ => by
        rcases divPick_shape indexed r2c k sel b with h | ⟨_, p, hp, h⟩
        · exact Or.inl h
        · exact Or.inr ⟨p, hp, h⟩) ([] : List (Nat × Scored)) x h2
    rcases h1 with h1 | h1
    · exact absurd h1 (List.not_mem_nil x)
    · exact h1
  · exact h2

theorem ensure_diversity_length (scored : List Scored) (r2c : List (Nat × Nat))
    (k : Nat) : (ensure_diversity scored r2c k).length = min k scored.length := by
  simp only [ensure_diversity]
  by_cases h0 : scored.isEmpty
  · have h0' : scored = [] := by simpa using h0
    subst h0'
    simp
  · rw [if_neg h0]
    have hlen := List.length_insertionSort
      (fun a b : Scored => b.total_score ≤ a.total_score) scored
    by_cases h1 : (List.insertionSort
        (fun a b : Scored => b.total_score ≤ a.total_score) scored).length ≤ k
    · rw [if_pos h1, hlen]
      rw [hlen] at h1
      omega
    · rw [if_neg h1]
      rw [hlen] at h1
      push_neg at h1
      rw [List.length_take, List.length_insertionSort, List.length_map]
      have hds : (divSelect (pyEnum (List.insertionSort
          (fun a b : Scored => b.total_score ≤ a.total_score) scored)) r2c k).length = k := by
        apply divSelect_length
        rw [hlen]
        exact h1
      rw [hds]
      omega

theorem ensure_diversity_subset (scored : List Scored) (r2c : List (Nat × Nat))
    (k : Nat) : ∀ x ∈ ensure_diversity scored r2c k, x ∈ scored := by
  intro x hx
  simp only [ensure_diversity] at hx
  by_cases h0 : scored.isEmpty
  · rw [if_pos h0] at hx
    exact absurd hx (List.not_mem_nil x)
  · rw [if_neg h0] at hx
    by_cases h1 : (List.insertionSort
        (fun a b : Scored => b.total_score ≤ a.total_score) scored).length ≤ k
    · rw [if_pos h1] at hx
      exact (List.mem_insertionSort _).mp hx
    · rw [if_neg h1] at hx
      have hx' := List.take_subset _ _ hx
      have hx'' := (List.mem_insertionSort _).mp hx'
      obtain ⟨p, hp, hpx⟩ := List.mem_map.mp hx''
      have hpi := divSelect_subset _ r2c k p hp
      have hsnd := pyEnum_snd_mem hpi
      rw [hpx] at hsnd
      exact (List.mem_insertionSort _).mp hsnd

theorem ensure_diversity_sorted (scored : List Scored) (r2c : List (Nat × Nat))
    (k : Nat) : (ensure_diversity scored r2c k).Sorted
      (fun a b : Scored => b.total_score ≤ a.total_score) := by
  simp only [ensure_diversity]
  by_cases h0 : scored.isEmpty
  · rw [if_pos h0]
    exact List.sorted_nil
  · rw [if_neg h0]
    by_cases h1 : (List.insertionSort
        (fun a b : Scored => b.total_score ≤ a.total_score) scored).length ≤ k
    · rw [if_pos h1]
      exact List.sorted_insertionSort _ _
    · rw [if_neg h1]
      exact (List.sorted_insertionSort _ _).sublist (List.take_sublist _ _)

/-! ### Pipeline lemmas -/

theorem length_filterMap_of_isSome {α β : Type} (f : α → Option β) (l : List α)
    (h : ∀ x ∈ l, (f x).isSome) : (l.filterMap f).length = l.length := by
  induction l with
  | nil => rfl
  | cons a t ih =>
    rw [List.filterMap_cons]
    cases hf : f a with
    | none =>
      exact absurd (hf ▸ h a (List.mem_cons_self a t)) (by simp)
    | some b =>
      simp only [List.length_cons]
      rw [ih (fun x hx => h x (List.mem_cons_of_mem a hx))]

theorem q1_valid_spec (responses : List (List Char × List Char)) :
    ∀ pr ∈ q1_valid responses, 20 ≤ pr.2.length := by
  intro pr hpr
  unfold q1_valid at hpr
  obtain ⟨sr, _, hf⟩ := List.mem_filterMap.mp hpr
  simp only at hf
  split_ifs at hf with hc
  · cases hf
    exact hc

theorem q2_valid_spec (responses : List (List Char × List Char)) :
    ∀ pr ∈ q2_valid responses,
      10 ≤ pr.2.length ∧ is_valid_question pr.2 = true := by
  intro pr hpr
  unfold q2_valid at hpr
  obtain ⟨sr, _, hf⟩ := List.mem_filterMap.mp hpr
  simp only at hf
  split_ifs at hf with hc
  · cases hf
    simp only [Bool.and_eq_true, decide_eq_true_eq] at hc
    exact hc

theorem q3_valid_spec (responses : List (List Char × List Char)) :
    ∀ pr ∈ q3_valid responses, 15 ≤ pr.2.length := by
  intro pr hpr
  unfold q3_valid at hpr
  obtain ⟨sr, _, hf⟩ := List.mem_filterMap.mp hpr
  simp only at hf
  split_ifs at hf with hc
  · cases hf
    exact hc

theorem q1_scored_of_length (M : Extern) (cfg : AnalyzerConfig)
    (responses : List (List Char × List Char)) (activity : List Char) :
    (q1_scored_of M cfg responses activity).length = (q1_valid responses).length := by
  unfold q1_scored_of q1_clustered q1_scored
  rw [List.length_map, List.length_map, pyEnum_length]

/-- Each Q1 scored entry carries the data of one valid response. -/
theorem q1_scored_of_src (M : Extern) (cfg : AnalyzerConfig)
    (responses : List (List Char × List Char)) (activity : List Char) :
    ∀ s ∈ q1_scored_of M cfg responses activity,
      ∃ pr ∈ q1_valid responses, s.text = pr.2 ∧ s.student_id = pr.1 := by
  intro s hs
  unfold q1_scored_of q1_clustered q1_scored at hs
  obtain ⟨s', hs', rfl⟩ := List.mem_map.mp hs
  obtain ⟨p, hp, rfl⟩ := List.mem_map.mp hs'
  exact ⟨p.2, pyEnum_snd_mem hp, rfl, rfl⟩

/-- Each Q2 scored entry carries the data of one valid question. -/
theorem q2_scored_of_src (cfg : AnalyzerConfig) (qtc : Nat → List Char)
    (qs : List ℚ) (valid : List (List Char × List Char)) :
    ∀ s ∈ q2_scored_of cfg qtc qs valid,
      ∃ pr ∈ valid, s.text = pr.2 ∧ s.student_id = pr.1 := by
  intro s hs
  unfold q2_scored_of at hs
  obtain ⟨p, hp, hf⟩ := List.mem_filterMap.mp hs
  simp only at hf
  by_cases hc : (!is_valid_question p.2.2) = true
  · rw [if_pos hc] at hf
    exact absurd hf (by simp)
  · rw [if_neg hc] at hf
    cases hf
    exact ⟨p.2, pyEnum_snd_mem hp, rfl, rfl⟩

/-- Each Q3 scored entry carries the data of one valid response. -/
theorem q3_scored_of_src (qs : List ℚ) (cls : Nat → List Char)
    (valid : List (List Char × List Char)) :
    ∀ s ∈ q3_scored_of qs cls valid,
      ∃ pr ∈ valid, s.text = pr.2 ∧ s.student_id = pr.1 := by
  intro s hs
  unfold q3_scored_of at hs
  obtain ⟨p, hp, rfl⟩ := List.mem_map.mp hs
  exact ⟨p.2, pyEnum_snd_mem hp, rfl, rfl⟩

theorem q2_scored_of_length (cfg : AnalyzerConfig) (qtc : Nat → List Char)
    (qs : List ℚ) (valid : List (List Char × List Char))
    (hval : ∀ pr ∈ valid, is_valid_question pr.2 = true) :
    (q2_scored_of cfg qtc qs valid).length = valid.length := by
  unfold q2_scored_of
  rw [length_filterMap_of_isSome]
  · exact pyEnum_length valid
  · intro p hp
    have hv := hval p.2 (pyEnum_snd_mem hp)
    simp [hv]

theorem q2_scored_of_filter (cfg : AnalyzerConfig) (qtc : Nat → List Char)
    (qs : List ℚ) (valid : List (List Char × List Char))
    (hval : ∀ pr ∈ valid, is_valid_question pr.2 = true) :
    (q2_scored_of cfg qtc qs valid).filter (fun q => is_valid_question q.text) =
      q2_scored_of cfg qtc qs valid := by
  rw [List.filter_eq_self]
  intro s hs
  obtain ⟨pr, hpr, ht, _⟩ := q2_scored_of_src cfg qtc qs valid s hs
  rw [ht]
  exact hval pr hpr

theorem q3_scored_of_length (qs : List ℚ) (cls : Nat → List Char)
    (valid : List (List Char × List Char)) :
    (q3_scored_of qs cls valid).length = valid.length := by
  unfold q3_scored_of
  rw [List.length_map, pyEnum_length]

/-- Claim C2: for every run and every prompt category, the top selection
has length `min(top_n, number of valid responses)` — the valid responses
being those that pass the length/validity filter of the category — and is
sorted descending by combined score, so when fewer than `top_n` valid
responses exist, all of them are returned sorted. -/
theorem C2_selection_length_is_min (M : Extern) (cfg : AnalyzerConfig)
    (responses : List (List Char × List Char)) (activity : List Char)
    (qtc : Nat → List Char) (cls : Nat → List Char) :
    ((analyze_q1_summaries M cfg responses activity).top_10_responses.length =
        min cfg.top_n (q1_valid responses).length ∧
      (analyze_q1_summaries M cfg responses activity).top_10_responses.Sorted
        (fun a b : Scored => b.total_score ≤ a.total_score)) ∧
    ((analyze_q2_questions M cfg responses activity qtc).top_10_questions.length =
        min cfg.top_n (q2_valid responses).length ∧
      (analyze_q2_questions M cfg responses activity qtc).top_10_questions.Sorted
        (fun a b : Scored => b.total_score ≤ a.total_score)) ∧
    ((analyze_q3_fascination M cfg responses activity cls).top_10_responses.length =
        min cfg.top_n (q3_valid responses).length ∧
      (analyze_q3_fascination M cfg responses activity cls).top_10_responses.Sorted
        (fun a b : Scored => b.total_score ≤ a.total_score)) := by
  refine ⟨⟨?_, ?_⟩, ⟨?_, ?_⟩, ⟨?_, ?_⟩⟩
  · simp only [analyze_q1_summaries]
    by_cases hv : (q1_valid responses).isEmpty
    · have hv' : (q1_valid responses) = [] := by simpa using hv
      rw [if_pos hv, hv']
      simp
    · rw [if_neg hv]
      simp only
      rw [ensure_diversity_length, q1_scored_of_length]
  · simp only [analyze_q1_summaries]
    by_cases hv : (q1_valid responses).isEmpty
    · rw [if_pos hv]
      exact List.sorted_nil
    · rw [if_neg hv]
      simp only
      exact ensure_diversity_sorted _ _ _
  · simp only [analyze_q2_questions]
    by_cases hv : (q2_valid responses).isEmpty
    · have hv' : (q2_valid responses) = [] := by simpa using hv
      rw [if_pos hv, hv']
      simp
    · rw [if_neg hv]
      simp only
      rw [List.length_take, List.length_insertionSort, q2_scored_of_filter,
        q2_scored_of_length]
      · exact fun pr hpr => (q2_valid_spec responses pr hpr).2
      · exact fun pr hpr => (q2_valid_spec responses pr hpr).2
  · simp only [analyze_q2_questions]
    by_cases hv : (q2_valid responses).isEmpty
    · rw [if_pos hv]
      exact List.sorted_nil
    · rw [if_neg hv]
      simp only
      exact (List.sorted_insertionSort _ _).sublist (List.take_sublist _ _)
  · simp only [analyze_q3_fascination]
    by_cases hv : (q3_valid responses).isEmpty
    · have hv' : (q3_valid responses) = [] := by simpa using hv
      rw [if_pos hv, hv']
      simp
    · rw [if_neg hv]
      simp only
      rw [List.length_take, List.length_insertionSort, q3_scored_of_length]
  · simp only [analyze_q3_fascination]
    by_cases hv : (q3_valid responses).isEmpty
    · rw [if_pos hv]
      exact List.sorted_nil
    · rw [if_neg hv]
      simp only
      exact (List.sorted_insertionSort _ _).sublist (List.take_sublist _ _)

/-! ### Concrete instances used by counterexamples and witnesses -/

/-- A scored-response literal. -/
def mkSc (sid : String) (score : ℚ) (idx : Nat) (cid : Nat) : Scored :=
  { student_id := sid.toList, text := sid.toList, keyword_score := 0,
    quality_score := 0, total_score := score, response_idx := idx,
    cluster_id := cid, concept := [], category := [] }

/-- A cluster assignment over three responses spanning two clusters:
response 0 in cluster 1, responses 1 and 2 in cluster 0. -/
def c1r2c : List (Nat × Nat) := [(0, 1), (1, 0), (2, 0)]

/-- Three scored responses (scores 10, 90, 50) tagged with the cluster
ids of `c1r2c`, exactly as `analyze_q1_summaries` affixes them. -/
def c1scored : List Scored := [mkSc "s0" 10 0 1, mkSc "s1" 90 1 0, mkSc "s2" 50 2 0]

/-- An environment whose oracle always raises, whose JSON never parses,
whose vectorizer raises, and whose clustering surface is trivial. -/
def M0 : Extern :=
  { llmAvailable := false
  , gen := fun _ => .error ()
  , loads := fun _ => .error ()
  , tfidfPairs := fun _ => .error ()
  , fitTransform := fun rs => .ok rs.length
  , kmeans := fun _ n => .ok (List.range n)
  , themeKeywords := fun _ _ _ => [] }

/-- An environment satisfying the sklearn contracts (row count equals the
corpus size, KMeans labels below the cluster count). -/
def M1 : Extern :=
  { llmAvailable := false
  , gen := fun _ => .error ()
  , loads := fun _ => .error ()
  , tfidfPairs := fun _ => .error ()
  , fitTransform := fun rs => .ok rs.length
  , kmeans := fun k n => if k = 0 then .error () else .ok (List.replicate n 0)
  , themeKeywords := fun _ _ _ => [] }

/-- The default configuration: weights 0.4 / 0.4, top 10, 5 themes. -/
def cfg0 : AnalyzerConfig :=
  { weight_keyword := 2/5, weight_quality := 2/5, top_n := 10, n_themes := 5 }

/-- Claim C1 (failing input): three valid scored responses whose cluster
assignment spans 2 = K distinct clusters, yet the selection returned by
`ensure_diversity` with `top_n = 2` contains members of only one cluster
id — the source keys its cluster lookup by position in the score-sorted
list instead of by the original response index, so the diversity
guarantee fails. -/
theorem C1_diversity_guarantee_fails :
    (2 ≤ c1scored.length ∧ 2 ≤ ((c1r2c.map Prod.snd).dedup).length) ∧
    ((ensure_diversity c1scored c1r2c 2).map (fun s => s.cluster_id)).dedup.length = 1 := by
  decide

/-- Claim C7 (counterexample): with configured `n_themes = 0` and two
responses the code still produces one non-empty cluster, so the number
of distinct assigned cluster ids exceeds `min(n_themes, len(responses))`. -/
theorem C7_cluster_bound_counterexample :
    ¬ (((cluster_responses M0 0 [("aa".toList), ("bb".toList)]).response_to_cluster.map
          Prod.snd).dedup.length ≤
        min 0 ([("aa".toList), ("bb".toList)] : List (List Char)).length) := by
  decide

theorem replicate_dedup_length_le_one (n : Nat) (b : Nat) :
    (List.replicate n b).dedup.length ≤ 1 := by
  induction n with
  | zero => simp
  | succ m ih =>
    rw [List.replicate_succ]
    by_cases hm : b ∈ List.replicate m b
    · rw [List.dedup_cons_of_mem hm]
      exact ih
    · rw [List.dedup_cons_of_not_mem hm]
      have hz : m = 0 := by
        by_contra h
        exact hm (List.mem_replicate.mpr ⟨h, rfl⟩)
      subst hz
      simp

theorem range_pair_map_fst (n : Nat) :
    (((List.range n).map (fun i => (i, 0))).map (@Prod.fst Nat Nat)) =
      List.range n := by
  rw [List.map_map]
  have h : (@Prod.fst Nat Nat) ∘ (fun i => (i, 0)) = id := rfl
  rw [h, List.map_id]

theorem range_pair_map_snd_dedup (n : Nat) :
    ((((List.range n).map (fun i => (i, 0))).map
      (@Prod.snd Nat Nat)).dedup).length ≤ 1 := by
  rw [List.map_map]
  have h : (@Prod.snd Nat Nat) ∘ (fun i => (i, 0)) = fun _ => (0:Nat) := rfl
  rw [h, List.map_const', List.length_range]
  exact replicate_dedup_length_le_one n 0

/-- In every degenerate outcome the assignment maps each index to
cluster 0; both invariants follow. -/
theorem trivial_r2c_conclusions (n_themes n : Nat) (r2c : List (Nat × Nat))
    (hr : r2c = (List.range n).map (fun i => (i, 0)))
    (hmin : 1 ≤ min n_themes n ∨ n = 0) :
    (r2c.map Prod.fst = List.range n) ∧
    ((r2c.map Prod.snd).dedup.length ≤ min n_themes n) := by
  subst hr
  refine ⟨range_pair_map_fst n, ?_⟩
  rcases hmin with hmin | hz
  · have hle := range_pair_map_snd_dedup n
    omega
  · subst hz
    simp

/-- Claim C7 (amended): under the sklearn contracts — `fit_transform`
returns one row per response and KMeans labels lie below the requested
cluster count — and for a configured `n_themes ≥ 1` (the code forces at
least one cluster), `cluster_responses` assigns exactly one cluster id
to every response index, the number of distinct assigned ids is at most
`min(n_themes, len(responses))`, and fewer than 2 responses or a
vectorization failure yield the single cluster 0 instead of raising. -/
theorem C7_cluster_assignment_invariants (M : Extern) (n_themes : Nat)
    (responses : List (List Char))
    (hft : ∀ rows, M.fitTransform responses = .ok rows → rows = responses.length)
    (hkm : ∀ k rows labels, M.kmeans k rows = .ok labels →
      labels.length = rows ∧ ∀ l ∈ labels, l < k)
    (hnt : 1 ≤ n_themes) :
    ((cluster_responses M n_themes responses).response_to_cluster.map Prod.fst =
      List.range responses.length) ∧
    (((cluster_responses M n_themes responses).response_to_cluster.map
        Prod.snd).dedup.length ≤ min n_themes responses.length) ∧
    ((responses.length < 2 ∨ M.fitTransform responses = .error ()) →
      (cluster_responses M n_themes responses).response_to_cluster =
        (List.range responses.length).map (fun i => (i, 0))) := by
  have hminpos : 0 < responses.length → 1 ≤ min n_themes responses.length :=
    fun h0 => le_min hnt h0
  by_cases h2 : responses.length < 2
  · have hr : (cluster_responses M n_themes responses).response_to_cluster =
        (List.range responses.length).map (fun i => (i, 0)) := by
      unfold cluster_responses
      rw [if_pos h2]
      rfl
    have hmin : 1 ≤ min n_themes responses.length ∨ responses.length = 0 := by
      rcases Nat.eq_zero_or_pos responses.length with h0 | h0
      · exact Or.inr h0
      · exact Or.inl (hminpos h0)
    obtain ⟨ha, hb⟩ := trivial_r2c_conclusions n_themes responses.length _ hr hmin
    exact ⟨ha, hb, fun _ => hr⟩
  · push_neg at h2
    have hpos : 0 < responses.length := by omega
    cases hftv : M.fitTransform responses with
    | error e =>
      cases e
      have hr : (cluster_responses M n_themes responses).response_to_cluster =
          (List.range responses.length).map (fun i => (i, 0)) := by
        unfold cluster_responses
        rw [if_neg (not_lt.mpr h2), hftv]
        rfl
      obtain ⟨ha, hb⟩ := trivial_r2c_conclusions n_themes responses.length _ hr
        (Or.inl (hminpos hpos))
      exact ⟨ha, hb, fun _ => hr⟩
    | ok rows =>
      have hrows : rows = responses.length := hft rows hftv
      subst hrows
      have hnoerr : ¬ (responses.length < 2 ∨
          (Except.ok responses.length : Except Unit Nat) = .error ()) := by
        rintro (hlt | herr)
        · omega
        · exact absurd herr (by simp)
      by_cases hnc : max 1 (min n_themes (min responses.length responses.length)) = 1
      · have hr : (cluster_responses M n_themes responses).response_to_cluster =
            (List.range responses.length).map (fun i => (i, 0)) := by
          unfold cluster_responses
          rw [if_neg (not_lt.mpr h2), hftv]
          dsimp only
          rw [if_pos hnc]
        obtain ⟨ha, hb⟩ := trivial_r2c_conclusions n_themes responses.length _ hr
          (Or.inl (hminpos hpos))
        exact ⟨ha, hb, fun hcon => absurd hcon hnoerr⟩
      · cases hkmv : M.kmeans (max 1 (min n_themes (min responses.length
            responses.length))) responses.length with
        | error e =>
          cases e
          have hr : (cluster_responses M n_themes responses).response_to_cluster =
              (List.range responses.length).map (fun i => (i, 0)) := by
            unfold cluster_responses
            rw [if_neg (not_lt.mpr h2), hftv]
            dsimp only
            rw [if_neg hnc, hkmv]
            rfl
          obtain ⟨ha, hb⟩ := trivial_r2c_conclusions n_themes responses.length _ hr
            (Or.inl (hminpos hpos))
          exact ⟨ha, hb, fun hcon => absurd hcon hnoerr⟩
        | ok labels =>
          obtain ⟨hlen, hlab⟩ := hkm _ _ _ hkmv
          have hr : (cluster_responses M n_themes responses).response_to_cluster =
              pyEnum labels := by
            unfold cluster_responses
            rw [if_neg (not_lt.mpr h2), hftv]
            dsimp only
            rw [if_neg hnc, hkmv]
          rw [hr]
          have hkval : max 1 (min n_themes (min responses.length responses.length)) =
              min n_themes responses.length := by
            rw [min_self]
            exact Nat.max_eq_right (hminpos hpos)
          refine ⟨?_, ?_, fun hcon => absurd hcon hnoerr⟩
          · rw [pyEnum_map_fst, hlen]
          · have hsnd : (pyEnum labels).map Prod.snd = labels := by
              unfold pyEnum
              exact List.map_snd_zip _ _ (by simp)
            rw [hsnd]
            have hsub : labels.dedup ⊆ List.range (max 1 (min n_themes
                (min responses.length responses.length))) := by
              intro x hx
              exact List.mem_range.mpr (hlab x (List.mem_dedup.mp hx))
            have hsp := (List.subperm_of_subset (List.nodup_dedup labels) hsub).length_le
            rw [List.length_range, hkval] at hsp
            exact hsp

/-- Witness for the amended C7 at a concrete contract-satisfying
environment, two responses and five themes. -/
theorem C7_cluster_assignment_invariants_witness :
    ((cluster_responses M1 5 [("aa".toList), ("bb".toList)]).response_to_cluster.map
        Prod.fst = List.range 2) ∧
    (((cluster_responses M1 5 [("aa".toList), ("bb".toList)]).response_to_cluster.map
        Prod.snd).dedup.length ≤ min 5 2) := by
  have h := C7_cluster_assignment_invariants M1 5 [("aa".toList), ("bb".toList)]
    (fun rows h => by
      have h2 : M1.fitTransform [("aa".toList), ("bb".toList)] = .ok 2 := rfl
      exact (Except.ok.inj (h2.symm.trans h)).symm)
    (fun k rows labels h => by
      simp only [M1] at h
      split_ifs at h with hk0
      have hl : labels = List.replicate rows 0 := by simpa using h.symm
      subst hl
      refine ⟨by simp, ?_⟩
      intro l hl
      have h0 : l = 0 := List.eq_of_mem_replicate hl
      omega)
    (by norm_num)
  exact ⟨h.1, h.2.1⟩

theorem roundHalfEven_mono {a b : ℚ} (hab : a ≤ b) :
    roundHalfEven a ≤ roundHalfEven b := by
  have hfl : ⌊a⌋ ≤ ⌊b⌋ := Int.floor_le_floor hab
  rcases lt_or_eq_of_le hfl with hlt | heq
  · have h1 : roundHalfEven a ≤ ⌊a⌋ + 1 := by
      unfold roundHalfEven
      simp only [ratFloor_eq]
      split_ifs <;> omega
    have h2 : ⌊b⌋ ≤ roundHalfEven b := by
      unfold roundHalfEven
      simp only [ratFloor_eq]
      split_ifs <;> omega
    omega
  · have hfr : a - (⌊a⌋ : ℚ) ≤ b - (⌊b⌋ : ℚ) := by
      rw [← heq]
      linarith
    unfold roundHalfEven
    simp only [ratFloor_eq]
    split_ifs <;> try omega
    all_goals (exfalso; push_neg at *; linarith)

theorem pyRound2_mono {a b : ℚ} (hab : a ≤ b) : pyRound2 a ≤ pyRound2 b := by
  unfold pyRound2
  have h := roundHalfEven_mono (show a * 100 ≤ b * 100 by linarith)
  have h' : (roundHalfEven (a * 100) : ℚ) ≤ (roundHalfEven (b * 100) : ℚ) := by
    exact_mod_cast h
  linarith

/-- Claim C8: with fixed non-negative weights, the combined score
`keyword * weight_keyword + quality * weight_quality` is monotonically
non-decreasing in the quality score with the lexical score fixed, and
vice versa; the rounding to two decimals applied when the score is
stored preserves this. -/
theorem C8_combined_score_monotone (wk wq lex lex' qual qual' : ℚ)
    (hwk : 0 ≤ wk) (hwq : 0 ≤ wq) :
    (qual ≤ qual' →
      combined_score wk wq lex qual ≤ combined_score wk wq lex qual' ∧
      pyRound2 (combined_score wk wq lex qual) ≤
        pyRound2 (combined_score wk wq lex qual')) ∧
    (lex ≤ lex' →
      combined_score wk wq lex qual ≤ combined_score wk wq lex' qual ∧
      pyRound2 (combined_score wk wq lex qual) ≤
        pyRound2 (combined_score wk wq lex' qual)) := by
  unfold combined_score
  constructor
  · intro h
    refine ⟨by nlinarith, pyRound2_mono (by nlinarith)⟩
  · intro h
    refine ⟨by nlinarith, pyRound2_mono (by nlinarith)⟩

/-- Witness for C8 at the default weights 0.4/0.4 and concrete scores. -/
theorem C8_combined_score_monotone_witness :
    (0:ℚ) ≤ 2/5 ∧ (40:ℚ) ≤ 60 ∧
    (combined_score (2/5) (2/5) 50 40 ≤ combined_score (2/5) (2/5) 50 60 ∧
      pyRound2 (combined_score (2/5) (2/5) 50 40) ≤
        pyRound2 (combined_score (2/5) (2/5) 50 60)) := by
  refine ⟨by norm_num, by norm_num, ?_⟩
  exact (C8_combined_score_monotone (2/5) (2/5) 50 50 40 60 (by norm_num)
    (by norm_num)).1 (by norm_num)

theorem round1_pair_sum {qa qb : ℚ} (h : qa + qb = 100) :
    |pyRound1 qa + pyRound1 qb - 100| ≤ 1/10 := by
  have ha := abs_pyRound1_sub_le qa
  have hb := abs_pyRound1_sub_le qb
  rw [abs_le] at ha hb ⊢
  constructor <;> linarith [ha.1, ha.2, hb.1, hb.2]

theorem filter_ge_lt_length (f : Scored → ℚ) (c : ℚ) (l : List Scored) :
    (l.filter (fun r => c ≤ f r)).length + (l.filter (fun r => f r < c)).length =
      l.length := by
  induction l with
  | nil => rfl
  | cons a t ih =>
    rw [List.filter_cons, List.filter_cons]
    by_cases h : c ≤ f a
    · have h2 : ¬ (f a < c) := not_lt.mpr h
      simp [h, h2]
      omega
    · have h2 : f a < c := lt_of_not_le h
      simp [h, h2]
      omega

/-- Claim C9: for every scored population, the two cohort-bucket
percentages (count/total*100 rounded to one decimal) sum to 100 within
±0.1 when the population is non-empty, and are both 0 — without a
division error — when it is empty; this holds for the cognitive
partition (total_score ≥ 50) and the affective partition
(quality_score ≥ 50) alike. -/
theorem C9_bucket_percentages (l : List Scored) :
    (l ≠ [] →
      |(categorize_cognitive_domain l).above.percentage +
        (categorize_cognitive_domain l).below.percentage - 100| ≤ 1/10 ∧
      |(categorize_affective_domain l).above.percentage +
        (categorize_affective_domain l).below.percentage - 100| ≤ 1/10) ∧
    (l = [] →
      (categorize_cognitive_domain l).above.percentage = 0 ∧
      (categorize_cognitive_domain l).below.percentage = 0 ∧
      (categorize_affective_domain l).above.percentage = 0 ∧
      (categorize_affective_domain l).below.percentage = 0) := by
  constructor
  · intro hne
    have hpos : 0 < l.length := List.length_pos.mpr hne
    have key : ∀ f : Scored → ℚ,
        |(if 0 < l.length then
            pyRound1 (((l.filter (fun r => 50 ≤ f r)).length : ℚ) / (l.length : ℚ) * 100)
          else 0) +
          (if 0 < l.length then
            pyRound1 (((l.filter (fun r => f r < 50)).length : ℚ) / (l.length : ℚ) * 100)
          else 0) - 100| ≤ 1/10 := by
      intro f
      rw [if_pos hpos, if_pos hpos]
      apply round1_pair_sum
      have hsum := filter_ge_lt_length f 50 l
      have hl0 : (l.length : ℚ) ≠ 0 := by
        exact_mod_cast Nat.pos_iff_ne_zero.mp hpos
      field_simp
      push_cast [← hsum]
      ring
    exact ⟨key (fun r => r.total_score), key (fun r => r.quality_score)⟩
  · intro he
    subst he
    exact ⟨rfl, rfl, rfl, rfl⟩

/-- Witness for C9 at a concrete one-element population and at the empty
population. -/
theorem C9_bucket_percentages_witness :
    ([mkSc "s0" 80 0 0] ≠ ([] : List Scored) ∧
      |(categorize_cognitive_domain [mkSc "s0" 80 0 0]).above.percentage +
        (categorize_cognitive_domain [mkSc "s0" 80 0 0]).below.percentage - 100| ≤ 1/10) ∧
    (categorize_cognitive_domain ([] : List Scored)).above.percentage = 0 := by
  refine ⟨⟨by simp, ((C9_bucket_percentages [mkSc "s0" 80 0 0]).1 (by simp)).1⟩, ?_⟩
  exact ((C9_bucket_percentages ([] : List Scored)).2 rfl).1

unseal Rat.mul Rat.add Rat.sub Rat.inv in
theorem pyRound2_zero : pyRound2 0 = 0 := by decide

unseal Rat.mul Rat.add Rat.sub Rat.inv in
theorem pyRound2_fifty : pyRound2 50 = 50 := by decide

/-- Claim C10: a scored QUESTION-category response never reports a
quality score strictly between 0 and 30: the Q2 scoring loop replaces
any oracle quality score below 30 by 0 before combining, so the stored
quality component is 0 or at least 30 — both in the full scored list
(for arbitrary oracle scores and concept mapping) and in the returned
top selection. -/
theorem C10_q2_quality_zero_or_ge_30 (cfg : AnalyzerConfig) (qtc : Nat → List Char)
    (quality_scores : List ℚ) (valid : List (List Char × List Char))
    (M : Extern) (responses : List (List Char × List Char)) (activity : List Char) :
    (∀ s ∈ q2_scored_of cfg qtc quality_scores valid,
      s.quality_score = 0 ∨ 30 ≤ s.quality_score) ∧
    (∀ s ∈ (analyze_q2_questions M cfg responses activity qtc).top_10_questions,
      s.quality_score = 0 ∨ 30 ≤ s.quality_score) := by
  have part1 : ∀ (qs : List ℚ) (vl : List (List Char × List Char)),
      ∀ s ∈ q2_scored_of cfg qtc qs vl,
        s.quality_score = 0 ∨ 30 ≤ s.quality_score := by
    intro qs vl s hs
    unfold q2_scored_of at hs
    obtain ⟨p, _, hf⟩ := List.mem_filterMap.mp hs
    simp only at hf
    by_cases hc : (!is_valid_question p.2.2) = true
    · rw [if_pos hc] at hf
      exact absurd hf (by simp)
    · rw [if_neg hc] at hf
      cases hf
      by_cases hq : qs.getD p.1 50 < 30
      · left
        simp only [if_pos hq]
        exact pyRound2_zero
      · right
        simp only [if_neg hq]
        have h30 : ((30:ℤ) : ℚ) ≤ qs.getD p.1 50 := by
          push_cast
          linarith [not_lt.mp hq]
        have := le_pyRound2 h30
        exact_mod_cast this
  refine ⟨part1 _ _, ?_⟩
  intro s hs
  simp only [analyze_q2_questions] at hs
  by_cases hv : (q2_valid responses).isEmpty
  · rw [if_pos hv] at hs
    simp at hs
  · rw [if_neg hv] at hs
    simp only at hs
    have hs1 := List.take_subset _ _ hs
    have hs2 := (List.mem_insertionSort _).mp hs1
    have hs3 := List.mem_of_mem_filter hs2
    exact part1 _ _ s hs3

/-- A concrete Q2 scored entry: one valid question, oracle score 50,
concept `Other`. -/
def c10entry : Scored :=
  { student_id := ("s1".toList), text := ("why does dna replicate?".toList)
  , keyword_score := 40, quality_score := 50, total_score := 36
  , response_idx := 0, cluster_id := 0, concept := ("Other".toList)
  , category := [] }

unseal Rat.mul Rat.add Rat.sub Rat.inv in
/-- Witness for C10 at a concrete scored question. -/
theorem C10_q2_quality_zero_or_ge_30_witness :
    c10entry ∈ q2_scored_of cfg0 (fun _ => ("Other".toList)) [50]
      (q2_valid [(("s1".toList), ("why does dna replicate?".toList))]) ∧
    (c10entry.quality_score = 0 ∨ 30 ≤ c10entry.quality_score) := by
  refine ⟨by decide, ?_⟩
  exact (C10_q2_quality_zero_or_ge_30 cfg0 (fun _ => ("Other".toList)) [50]
    (q2_valid [(("s1".toList), ("why does dna replicate?".toList))]) M0 [] []).1
    c10entry (by decide)

theorem pyRound2_mem_Icc (lo hi : ℤ) {q : ℚ} (hlo : (lo:ℚ) ≤ q) (hhi : q ≤ (hi:ℚ)) :
    (lo:ℚ) ≤ pyRound2 q ∧ pyRound2 q ≤ (hi:ℚ) :=
  ⟨le_pyRound2 hlo, pyRound2_le hhi⟩

/-- Claim C4: for every response with non-empty cleaned text and
non-empty concept keyword list, the concept overlap score lies in
`[0, 100]`; at least one keyword match forces a score of at least 30;
and with two or more matches the score equals the 30-floored base score
boosted by 30% and capped at 100 (rounded to two decimals as stored). -/
theorem C4_concept_score_overlap (response : List Char) (kws : List (List Char))
    (hne : clean_text response ≠ []) (hkw : kws ≠ []) :
    (0 ≤ score_concept_keyword_overlap response kws ∧
      score_concept_keyword_overlap response kws ≤ 100) ∧
    (1 ≤ conceptMatchCount (clean_text response) kws →
      30 ≤ score_concept_keyword_overlap response kws) ∧
    (2 ≤ conceptMatchCount (clean_text response) kws →
      score_concept_keyword_overlap response kws =
        pyRound2 (min 100 (max 30 ((conceptMatchCount (clean_text response) kws : ℚ) /
          (kws.length : ℚ) * 100) * (13/10)))) := by
  have hnpos : 0 < kws.length := List.length_pos.mpr hkw
  have hnq : (0:ℚ) < (kws.length : ℚ) := by exact_mod_cast hnpos
  set m := conceptMatchCount (clean_text response) kws with hm
  have hmle : m ≤ kws.length := List.length_filter_le _ _
  set base : ℚ := (m : ℚ) / (kws.length : ℚ) * 100 with hbase
  have hbase0 : 0 ≤ base := by
    apply mul_nonneg _ (by norm_num)
    exact div_nonneg (by exact_mod_cast Nat.zero_le m) (le_of_lt hnq)
  have hbase100 : base ≤ 100 := by
    rw [hbase]
    have h1 : (m : ℚ) / (kws.length : ℚ) ≤ 1 := by
      rw [div_le_one hnq]
      exact_mod_cast hmle
    nlinarith
  have hval : score_concept_keyword_overlap response kws =
      pyRound2 (min 100 (if 2 ≤ m then min 100 ((if 1 ≤ m then max 30 base else base) * (13/10))
        else if 1 ≤ m then min 100 ((if 1 ≤ m then max 30 base else base) * (11/10))
        else (if 1 ≤ m then max 30 base else base))) := by
    simp only [score_concept_keyword_overlap]
    rw [if_neg]
    simp only [Bool.or_eq_true, decide_eq_true_eq, not_or]
    exact ⟨hne, hkw⟩
  by_cases h2 : 2 ≤ m
  · have h1 : 1 ≤ m := le_trans (by norm_num) h2
    rw [hval]
    simp only [if_pos h2, if_pos h1]
    have hmax30 : (30:ℚ) ≤ max 30 base := le_max_left _ _
    have hmax100 : max 30 base ≤ 100 := max_le (by norm_num) hbase100
    have hinner0 : (30:ℚ) ≤ min 100 (max 30 base * (13/10)) := by
      apply le_min (by norm_num)
      nlinarith
    have hinner100 : min 100 (max 30 base * (13/10)) ≤ 100 := min_le_left _ _
    have houter : min 100 (min 100 (max 30 base * (13/10))) =
        min 100 (max 30 base * (13/10)) := by
      rw [← min_assoc, min_self]
    rw [houter]
    have hb := pyRound2_mem_Icc 30 100
      (by exact_mod_cast hinner0) (by exact_mod_cast hinner100)
    refine ⟨⟨by linarith [hb.1], by exact_mod_cast hb.2⟩, fun _ => by exact_mod_cast hb.1, fun _ => rfl⟩
  · by_cases h1 : 1 ≤ m
    · rw [hval]
      simp only [if_neg h2, if_pos h1]
      have hmax30 : (30:ℚ) ≤ max 30 base := le_max_left _ _
      have hmax100 : max 30 base ≤ 100 := max_le (by norm_num) hbase100
      have hinner0 : (30:ℚ) ≤ min 100 (max 30 base * (11/10)) := by
        apply le_min (by norm_num)
        nlinarith
      have hinner100 : min 100 (max 30 base * (11/10)) ≤ 100 := min_le_left _ _
      have houter : min 100 (min 100 (max 30 base * (11/10))) =
          min 100 (max 30 base * (11/10)) := by
        rw [← min_assoc, min_self]
      rw [houter]
      have hb := pyRound2_mem_Icc 30 100
        (by exact_mod_cast hinner0) (by exact_mod_cast hinner100)
      exact ⟨⟨by linarith [hb.1], by exact_mod_cast hb.2⟩,
        fun _ => by exact_mod_cast hb.1, fun hx => absurd hx h2⟩
    · rw [hval]
      simp only [if_neg h2, if_neg h1]
      have hmin0 : (0:ℚ) ≤ min 100 base := le_min (by norm_num) hbase0
      have hmin100 : min 100 base ≤ 100 := min_le_left _ _
      have hb := pyRound2_mem_Icc 0 100
        (by exact_mod_cast hmin0) (by exact_mod_cast hmin100)
      exact ⟨⟨by exact_mod_cast hb.1, by exact_mod_cast hb.2⟩,
        fun hx => absurd hx h1, fun hx => absurd hx h2⟩

unseal Rat.mul Rat.add Rat.sub Rat.inv in
/-- Witness for C4 at a concrete response matching two of three
concepts. -/
theorem C4_concept_score_overlap_witness :
    (clean_text ("we used pcr and plasmid methods".toList) ≠ [] ∧
      ([("pcr".toList), ("plasmid".toList), ("crispr".toList)] : List (List Char)) ≠ [] ∧
      2 ≤ conceptMatchCount (clean_text ("we used pcr and plasmid methods".toList))
        [("pcr".toList), ("plasmid".toList), ("crispr".toList)]) ∧
    (0 ≤ score_concept_keyword_overlap ("we used pcr and plasmid methods".toList)
        [("pcr".toList), ("plasmid".toList), ("crispr".toList)] ∧
      30 ≤ score_concept_keyword_overlap ("we used pcr and plasmid methods".toList)
        [("pcr".toList), ("plasmid".toList), ("crispr".toList)]) := by
  have h := C4_concept_score_overlap ("we used pcr and plasmid methods".toList)
    [("pcr".toList), ("plasmid".toList), ("crispr".toList)] (by decide) (by decide)
  exact ⟨⟨by decide, by decide, by decide⟩, h.1.1, h.2.1 (by decide)⟩

/-! ### Oracle-failure lemmas (C5) -/

theorem getD_map_const {α : Type} (l : List α) (i : Nat) (c : ℚ) :
    (l.map (fun _ => c)).getD i c = c := by
  rw [List.getD_eq_getElem?_getD, List.getElem?_map]
  cases l[i]? <;> simp

theorem get_llm_quality_score_fail (M : Extern) (hgen : ∀ l, M.gen l = .error ())
    (response : List Char) : get_llm_quality_score M response = 50 := by
  unfold get_llm_quality_score
  rw [hgen]
  rfl

theorem batchChunks_cons {α : Type} (l : List α) (h : ¬ l.isEmpty) :
    batchChunks l = l.take 12 :: batchChunks (l.drop 12) := by
  rw [batchChunks]
  rw [dif_neg h]

theorem processBatch_fail (M : Extern) (hgen : ∀ l, M.gen l = .error ())
    (batch : List (List Char)) : processBatch M batch = .error () := by
  unfold processBatch
  rw [hgen]
  rfl

theorem batch_get_all_fail (M : Extern) (hgen : ∀ l, M.gen l = .error ())
    (responses : List (List Char)) :
    batch_get_llm_quality_scores M responses = responses.map (fun _ => (50:ℚ)) := by
  unfold batch_get_llm_quality_scores
  by_cases h0 : responses.isEmpty
  · rw [if_pos h0]
    have h0' : responses = [] := by simpa using h0
    simp [h0']
  · rw [if_neg h0]
    rw [batchChunks_cons responses h0]
    have hpb := processBatch_fail M hgen (responses.take 12)
    simp only [List.mapM_cons, hpb]
    have hmap : responses.map (fun r => get_llm_quality_score M r) =
        responses.map (fun _ => (50:ℚ)) := by
      apply List.map_congr_left
      intro r _
      exact get_llm_quality_score_fail M hgen r
    simpa using hmap

/-- Claim C5: when every oracle call (`generate_content`) raises, the
analysis still completes (the model functions are total) and every
scored response of each category carries the neutral quality score 50 —
each oracle failure is absorbed per batch and per item, never aborting
the run. -/
theorem C5_oracle_failure_neutral (M : Extern) (cfg : AnalyzerConfig)
    (responses : List (List Char × List Char)) (activity : List Char)
    (qtc : Nat → List Char) (cls : Nat → List Char)
    (hgen : ∀ l, M.gen l = .error ()) :
    (∀ s ∈ q1_scored_of M cfg responses activity, s.quality_score = 50) ∧
    (∀ s ∈ (analyze_q1_summaries M cfg responses activity).top_10_responses,
      s.quality_score = 50) ∧
    (∀ s ∈ (analyze_q2_questions M cfg responses activity qtc).top_10_questions,
      s.quality_score = 50) ∧
    (∀ s ∈ (analyze_q3_fascination M cfg responses activity cls).top_10_responses,
      s.quality_score = 50) := by
  have part_q1 : ∀ s ∈ q1_scored_of M cfg responses activity,
      s.quality_score = 50 := by
    intro s hs
    unfold q1_scored_of q1_clustered at hs
    obtain ⟨s', hs', rfl⟩ := List.mem_map.mp hs
    unfold q1_scored at hs'
    obtain ⟨p, _, rfl⟩ := List.mem_map.mp hs'
    show pyRound2 ((batch_get_llm_quality_scores M
      ((q1_valid responses).map Prod.snd)).getD p.1 50) = 50
    rw [batch_get_all_fail M hgen, getD_map_const]
    exact pyRound2_fifty
  have part_q2 : ∀ s ∈ q2_scored_of cfg qtc
      (batch_get_llm_quality_scores M ((q2_valid responses).map Prod.snd))
      (q2_valid responses), s.quality_score = 50 := by
    intro s hs
    rw [batch_get_all_fail M hgen] at hs
    unfold q2_scored_of at hs
    obtain ⟨p, _, hf⟩ := List.mem_filterMap.mp hs
    simp only at hf
    by_cases hc : (!is_valid_question p.2.2) = true
    · rw [if_pos hc] at hf
      exact absurd hf (by simp)
    · rw [if_neg hc] at hf
      cases hf
      show pyRound2 (if (((q2_valid responses).map Prod.snd).map
          (fun _ => (50:ℚ))).getD p.1 50 < 30 then 0
        else (((q2_valid responses).map Prod.snd).map (fun _ => (50:ℚ))).getD p.1 50) = 50
      rw [getD_map_const]
      rw [if_neg (by norm_num : ¬ (50:ℚ) < 30)]
      exact pyRound2_fifty
  have part_q3 : ∀ s ∈ q3_scored_of
      (batch_get_llm_quality_scores M ((q3_valid responses).map Prod.snd)) cls
      (q3_valid responses), s.quality_score = 50 := by
    intro s hs
    rw [batch_get_all_fail M hgen] at hs
    unfold q3_scored_of at hs
    obtain ⟨p, _, rfl⟩ := List.mem_map.mp hs
    show pyRound2 ((((q3_valid responses).map Prod.snd).map
      (fun _ => (50:ℚ))).getD p.1 50) = 50
    rw [getD_map_const]
    exact pyRound2_fifty
  refine ⟨part_q1, ?_, ?_, ?_⟩
  · intro s hs
    simp only [analyze_q1_summaries] at hs
    by_cases hv : (q1_valid responses).isEmpty
    · rw [if_pos hv] at hs
      simp at hs
    · rw [if_neg hv] at hs
      exact part_q1 s (ensure_diversity_subset _ _ _ s hs)
  · intro s hs
    simp only [analyze_q2_questions] at hs
    by_cases hv : (q2_valid responses).isEmpty
    · rw [if_pos hv] at hs
      simp at hs
    · rw [if_neg hv] at hs
      exact part_q2 s (List.mem_of_mem_filter
        ((List.mem_insertionSort _).mp (List.take_subset _ _ hs)))
  · intro s hs
    simp only [analyze_q3_fascination] at hs
    by_cases hv : (q3_valid responses).isEmpty
    · rw [if_pos hv] at hs
      simp at hs
    · rw [if_neg hv] at hs
      exact part_q3 s ((List.mem_insertionSort _).mp (List.take_subset _ _ hs))

unseal Rat.mul Rat.add Rat.sub Rat.inv in
/-- Witness for C5: a concrete all-failing environment, one valid
response per category. -/
theorem C5_oracle_failure_neutral_witness :
    (∀ l, M0.gen l = .error ()) ∧
    (∀ s ∈ q1_scored_of M0 cfg0
        [(("s1".toList), ("today i learned about dna cutting".toList))]
        ("activity".toList), s.quality_score = 50) ∧
    (∀ s ∈ (analyze_q3_fascination M0 cfg0
        [(("s1".toList), ("loved the dna lab".toList))] ("activity".toList)
        (fun _ => ("content".toList))).top_10_responses, s.quality_score = 50) := by
  refine ⟨fun l => rfl, ?_, ?_⟩
  · exact (C5_oracle_failure_neutral M0 cfg0
      [(("s1".toList), ("today i learned about dna cutting".toList))]
      ("activity".toList) (fun _ => ("Other".toList)) (fun _ => ("content".toList))
      (fun l => rfl)).1
  · exact (C5_oracle_failure_neutral M0 cfg0
      [(("s1".toList), ("loved the dna lab".toList))] ("activity".toList)
      (fun _ => ("Other".toList)) (fun _ => ("content".toList))
      (fun l => rfl)).2.2.2

/-- Claim C6: `extract_concept_keywords_llm` never raises (it is a total
function of the environment) and returns at most 30 concept keywords;
when the oracle is unavailable, when the oracle call raises, or when
JSON parsing and the line-heuristic text extraction both fail, it falls
back to the TF-IDF keyword extraction truncated to the top 20 terms. -/
theorem C6_concept_extractor_total_and_capped (M : Extern) (activity : List Char) :
    (extract_concept_keywords_llm M activity).length ≤ 30 ∧
    (conceptTfidfFallback M activity).length ≤ 20 ∧
    (M.llmAvailable = false →
      extract_concept_keywords_llm M activity = conceptTfidfFallback M activity) ∧
    (M.gen [activity.take 2000] = .error () →
      extract_concept_keywords_llm M activity = conceptTfidfFallback M activity) ∧
    (∀ t, M.gen [activity.take 2000] = .ok t →
      M.loads (braceExtract (stripCodeFences t)) = .error () →
      conceptTextFallback (braceExtract (stripCodeFences t)) = [] →
      extract_concept_keywords_llm M activity = conceptTfidfFallback M activity) := by
  have hfb : (conceptTfidfFallback M activity).length ≤ 20 := by
    unfold conceptTfidfFallback
    rw [List.length_map]
    exact List.length_take_le _ _
  have hfb30 : (conceptTfidfFallback M activity).length ≤ 30 :=
    le_trans hfb (by norm_num)
  refine ⟨?_, hfb, ?_, ?_, ?_⟩
  · unfold extract_concept_keywords_llm
    cases hA : M.llmAvailable with
    | false => simpa using hfb30
    | true =>
      simp only [Bool.not_true, Bool.false_eq_true, if_false]
      cases hg : M.gen [activity.take 2000] with
      | error e =>
        cases e
        exact hfb30
      | ok t =>
        dsimp only
        cases hl : M.loads (braceExtract (stripCodeFences t)) with
        | ok v =>
          dsimp only
          cases hdo : conceptParseJson v with
          | ok concepts =>
            simpa using List.length_take_le 30 concepts
          | error e =>
            cases e
            exact hfb30
        | error e =>
          cases e
          dsimp only
          by_cases htf : conceptTextFallback (braceExtract (stripCodeFences t)) = []
          · rw [if_neg (by simpa using htf)]
            exact hfb30
          · rw [if_pos (by simpa using htf)]
            simpa using List.length_take_le 30 _
  · intro hA
    unfold extract_concept_keywords_llm
    rw [hA]
    rfl
  · intro hg
    unfold extract_concept_keywords_llm
    cases hA : M.llmAvailable with
    | false => rfl
    | true =>
      simp only [Bool.not_true, Bool.false_eq_true, if_false]
      rw [hg]
  · intro t hg hl htf
    unfold extract_concept_keywords_llm
    cases hA : M.llmAvailable with
    | false => rfl
    | true =>
      simp only [Bool.not_true, Bool.false_eq_true, if_false]
      rw [hg]
      simp only [hl, htf]
      rfl

/-- Witness for C6 at the all-failing environment: the oracle is
unavailable and the fallback equality holds. -/
theorem C6_concept_extractor_total_and_capped_witness :
    M0.llmAvailable = false ∧
    extract_concept_keywords_llm M0 ("activity".toList) =
      conceptTfidfFallback M0 ("activity".toList) ∧
    (extract_concept_keywords_llm M0 ("activity".toList)).length ≤ 30 := by
  have h := C6_concept_extractor_total_and_capped M0 ("activity".toList)
  exact ⟨rfl, h.2.2.1 rfl, h.1⟩

/-! ### Length-filter lemmas (C3) -/

theorem assoc_nodup_val_eq {α β : Type} (l : List (α × β))
    (h : (l.map Prod.fst).Nodup) {a : α} {b c : β}
    (hb : (a, b) ∈ l) (hc : (a, c) ∈ l) : b = c := by
  induction l with
  | nil => cases hb
  | cons p t ih =>
    rw [List.map_cons, List.nodup_cons] at h
    rcases List.mem_cons.mp hb with hb1 | hb1 <;>
      rcases List.mem_cons.mp hc with hc1 | hc1
    · rw [← hb1] at hc1
      exact (congrArg Prod.snd hc1.symm)
    · exfalso
      apply h.1
      have ha : a ∈ t.map Prod.fst := by
        simpa using List.mem_map_of_mem Prod.fst hc1
      rw [← hb1]
      simpa using ha
    · exfalso
      apply h.1
      have ha : a ∈ t.map Prod.fst := by
        simpa using List.mem_map_of_mem Prod.fst hb1
      rw [← hc1]
      simpa using ha
    · exact ih h.2 hb1 hc1

theorem q1_valid_src (responses : List (List Char × List Char)) :
    ∀ pr ∈ q1_valid responses, ∃ sr ∈ responses,
      sr.1 = pr.1 ∧ pr.2 = pyStrip sr.2 ∧ 20 ≤ (pyStrip sr.2).length := by
  intro pr hpr
  unfold q1_valid at hpr
  obtain ⟨sr, hsr, hf⟩ := List.mem_filterMap.mp hpr
  simp only at hf
  split_ifs at hf with hc
  cases hf
  exact ⟨sr, hsr, rfl, rfl, hc⟩

theorem q2_valid_src (responses : List (List Char × List Char)) :
    ∀ pr ∈ q2_valid responses, ∃ sr ∈ responses,
      sr.1 = pr.1 ∧ pr.2 = pyStrip sr.2 ∧ 10 ≤ (pyStrip sr.2).length := by
  intro pr hpr
  unfold q2_valid at hpr
  obtain ⟨sr, hsr, hf⟩ := List.mem_filterMap.mp hpr
  simp only at hf
  split_ifs at hf with hc
  cases hf
  simp only [Bool.and_eq_true, decide_eq_true_eq] at hc
  exact ⟨sr, hsr, rfl, rfl, hc.1⟩

theorem q3_valid_src (responses : List (List Char × List Char)) :
    ∀ pr ∈ q3_valid responses, ∃ sr ∈ responses,
      sr.1 = pr.1 ∧ pr.2 = pyStrip sr.2 ∧ 15 ≤ (pyStrip sr.2).length := by
  intro pr hpr
  unfold q3_valid at hpr
  obtain ⟨sr, hsr, hf⟩ := List.mem_filterMap.mp hpr
  simp only at hf
  split_ifs at hf with hc
  cases hf
  exact ⟨sr, hsr, rfl, rfl, hc⟩

/-- Claim C3 (amended): responses whose stripped text is below the
category minimum length — 20 characters for LEARNING (Q1), 10 for
QUESTION (Q2), 15 for INTEREST (Q3) — are excluded from analysis
entirely: every scored entry carries a stripped text meeting the
threshold, the top selections only contain scored entries, the cohort
buckets only contain scored students, and (for unique student ids) a
student whose response is below the threshold never appears among the
scored student ids. -/
theorem C3_below_threshold_excluded (M : Extern) (cfg : AnalyzerConfig)
    (responses : List (List Char × List Char)) (activity : List Char)
    (qtc : Nat → List Char) (cls : Nat → List Char) :
    (∀ s ∈ q1_scored_of M cfg responses activity, 20 ≤ s.text.length) ∧
    (∀ s ∈ (analyze_q1_summaries M cfg responses activity).top_10_responses,
      20 ≤ s.text.length) ∧
    (∀ s ∈ q2_scored_of cfg qtc
        (batch_get_llm_quality_scores M ((q2_valid responses).map Prod.snd))
        (q2_valid responses), 10 ≤ s.text.length) ∧
    (∀ s ∈ (analyze_q2_questions M cfg responses activity qtc).top_10_questions,
      10 ≤ s.text.length) ∧
    (∀ s ∈ q3_scored_of
        (batch_get_llm_quality_scores M ((q3_valid responses).map Prod.snd)) cls
        (q3_valid responses), 15 ≤ s.text.length) ∧
    (∀ s ∈ (analyze_q3_fascination M cfg responses activity cls).top_10_responses,
      15 ≤ s.text.length) ∧
    (∀ sid ∈ (analyze_q1_summaries M cfg responses
          activity).cognitive_categorization.above.students ++
        (analyze_q1_summaries M cfg responses
          activity).cognitive_categorization.below.students,
      sid ∈ (q1_scored_of M cfg responses activity).map (fun s => s.student_id)) ∧
    (∀ sid ∈ (analyze_q3_fascination M cfg responses activity
          cls).affective_categorization.above.students ++
        (analyze_q3_fascination M cfg responses activity
          cls).affective_categorization.below.students,
      sid ∈ (q3_scored_of (batch_get_llm_quality_scores M
        ((q3_valid responses).map Prod.snd)) cls (q3_valid responses)).map
        (fun s => s.student_id)) ∧
    (∀ sid r, (responses.map Prod.fst).Nodup → (sid, r) ∈ responses →
      ((pyStrip r).length < 20 →
        sid ∉ (q1_scored_of M cfg responses activity).map (fun s => s.student_id)) ∧
      ((pyStrip r).length < 10 →
        sid ∉ (q2_scored_of cfg qtc (batch_get_llm_quality_scores M
          ((q2_valid responses).map Prod.snd)) (q2_valid responses)).map
          (fun s => s.student_id)) ∧
      ((pyStrip r).length < 15 →
        sid ∉ (q3_scored_of (batch_get_llm_quality_scores M
          ((q3_valid responses).map Prod.snd)) cls (q3_valid responses)).map
          (fun s => s.student_id))) := by
  have txt1 : ∀ s ∈ q1_scored_of M cfg responses activity, 20 ≤ s.text.length := by
    intro s hs
    obtain ⟨pr, hpr, ht, _⟩ := q1_scored_of_src M cfg responses activity s hs
    rw [ht]
    exact q1_valid_spec responses pr hpr
  have txt2 : ∀ s ∈ q2_scored_of cfg qtc
      (batch_get_llm_quality_scores M ((q2_valid responses).map Prod.snd))
      (q2_valid responses), 10 ≤ s.text.length := by
    intro s hs
    obtain ⟨pr, hpr, ht, _⟩ := q2_scored_of_src _ _ _ _ s hs
    rw [ht]
    exact (q2_valid_spec responses pr hpr).1
  have txt3 : ∀ s ∈ q3_scored_of
      (batch_get_llm_quality_scores M ((q3_valid responses).map Prod.snd)) cls
      (q3_valid responses), 15 ≤ s.text.length := by
    intro s hs
    obtain ⟨pr, hpr, ht, _⟩ := q3_scored_of_src _ _ _ s hs
    rw [ht]
    exact q3_valid_spec responses pr hpr
  have key : ∀ (valid : List (List Char × List Char)) (thr : Nat),
      (∀ pr ∈ valid, ∃ sr ∈ responses,
        sr.1 = pr.1 ∧ pr.2 = pyStrip sr.2 ∧ thr ≤ (pyStrip sr.2).length) →
      ∀ sid r, (responses.map Prod.fst).Nodup → (sid, r) ∈ responses →
      (pyStrip r).length < thr →
      ∀ (sids : List (List Char)), (∀ x ∈ sids, ∃ pr ∈ valid, x = pr.1) →
      sid ∉ sids := by
    intro valid thr hsrc sid r hnd hmem hlen sids hsids hin
    obtain ⟨pr, hpr, heq⟩ := hsids sid hin
    obtain ⟨sr, hsr, h1, _, h3⟩ := hsrc pr hpr
    obtain ⟨a, b⟩ := sr
    simp only at h1 h3
    have ha : a = sid := by rw [h1, ← heq]
    subst ha
    have hval := assoc_nodup_val_eq responses hnd hmem hsr
    rw [← hval] at h3
    omega
  refine ⟨txt1, ?_, txt2, ?_, txt3, ?_, ?_, ?_, ?_⟩
  · intro s hs
    simp only [analyze_q1_summaries] at hs
    by_cases hv : (q1_valid responses).isEmpty
    · rw [if_pos hv] at hs
      simp at hs
    · rw [if_neg hv] at hs
      exact txt1 s (ensure_diversity_subset _ _ _ s hs)
  · intro s hs
    simp only [analyze_q2_questions] at hs
    by_cases hv : (q2_valid responses).isEmpty
    · rw [if_pos hv] at hs
      simp at hs
    · rw [if_neg hv] at hs
      exact txt2 s (List.mem_of_mem_filter
        ((List.mem_insertionSort _).mp (List.take_subset _ _ hs)))
  · intro s hs
    simp only [analyze_q3_fascination] at hs
    by_cases hv : (q3_valid responses).isEmpty
    · rw [if_pos hv] at hs
      simp at hs
    · rw [if_neg hv] at hs
      exact txt3 s ((List.mem_insertionSort _).mp (List.take_subset _ _ hs))
  · intro sid h
    simp only [analyze_q1_summaries] at h
    by_cases hv : (q1_valid responses).isEmpty
    · rw [if_pos hv] at h
      simp [categorize_cognitive_domain, mkBucket] at h
    · rw [if_neg hv] at h
      simp only [categorize_cognitive_domain, mkBucket] at h
      rcases List.mem_append.mp h with h' | h' <;>
        (obtain ⟨s, hsf, rfl⟩ := List.mem_map.mp h';
         exact List.mem_map_of_mem _ (List.mem_of_mem_filter hsf))
  · intro sid h
    simp only [analyze_q3_fascination] at h
    by_cases hv : (q3_valid responses).isEmpty
    · rw [if_pos hv] at h
      simp [categorize_affective_domain, mkBucket] at h
    · rw [if_neg hv] at h
      simp only [categorize_affective_domain, mkBucket] at h
      rcases List.mem_append.mp h with h' | h' <;>
        (obtain ⟨s, hsf, rfl⟩ := List.mem_map.mp h';
         exact List.mem_map_of_mem _ (List.mem_of_mem_filter hsf))
  · intro sid r hnd hmem
    refine ⟨?_, ?_, ?_⟩
    · intro hlen
      apply key (q1_valid responses) 20 (q1_valid_src responses) sid r hnd hmem hlen
      intro x hx
      obtain ⟨s, hs, rfl⟩ := List.mem_map.mp hx
      obtain ⟨pr, hpr, _, hid⟩ := q1_scored_of_src M cfg responses activity s hs
      exact ⟨pr, hpr, hid⟩
    · intro hlen
      apply key (q2_valid responses) 10 (q2_valid_src responses) sid r hnd hmem hlen
      intro x hx
      obtain ⟨s, hs, rfl⟩ := List.mem_map.mp hx
      obtain ⟨pr, hpr, _, hid⟩ := q2_scored_of_src _ _ _ _ s hs
      exact ⟨pr, hpr, hid⟩
    · intro hlen
      apply key (q3_valid responses) 15 (q3_valid_src responses) sid r hnd hmem hlen
      intro x hx
      obtain ⟨s, hs, rfl⟩ := List.mem_map.mp hx
      obtain ⟨pr, hpr, _, hid⟩ := q3_scored_of_src _ _ _ s hs
      exact ⟨pr, hpr, hid⟩

unseal Rat.mul Rat.add Rat.sub Rat.inv in
/-- Claim C3 (counterexample): an INTEREST (Q3) response of stripped
length 17 — below the 20-character threshold the claim asserts — is
scored and returned in the top selection: the Q3 filter only requires
15 characters. -/
theorem C3_interest_threshold_counterexample :
    (pyStrip ("loved the dna lab".toList)).length < 20 ∧
    ((analyze_q3_fascination M0 cfg0
        [(("s1".toList), ("loved the dna lab".toList))] ("activity".toList)
        (fun _ => ("content".toList))).top_10_responses.map (fun s => s.text)) =
      [pyStrip ("loved the dna lab".toList)] := by
  exact ⟨by decide, by decide⟩

unseal Rat.mul Rat.add Rat.sub Rat.inv in
/-- Witness for the amended C3: a one-student run whose Q1 response is
below 20 characters is excluded from the Q1 scored list. -/
theorem C3_below_threshold_excluded_witness :
    (([(("s1".toList), ("too short".toList))].map
      (@Prod.fst (List Char) (List Char))).Nodup ∧
      (("s1".toList), ("too short".toList)) ∈
        [(("s1".toList), ("too short".toList))] ∧
      (pyStrip ("too short".toList)).length < 20) ∧
    ("s1".toList) ∉ (q1_scored_of M0 cfg0 [(("s1".toList), ("too short".toList))]
      ("activity".toList)).map (fun s => s.student_id) := by
  refine ⟨⟨by decide, by decide, by decide⟩, ?_⟩
  exact (((C3_below_threshold_excluded M0 cfg0
    [(("s1".toList), ("too short".toList))] ("activity".toList)
    (fun _ => ("Other".toList)) (fun _ => ("content".toList))).2.2.2.2.2.2.2.2
    ("s1".toList) ("too short".toList) (by decide) (by decide)).1 (by decide))
